import Mathlib

/-!
# Verification of the Greek Bible study app core

Shallow embedding of the morphology decoders (`lxx_importer.parse_packard_morph`,
`setup_database.parse_morphology`), the query parser (`query_parser.parse_query`),
the query executor (`query_parser.execute_query` / `execute_proximity_search`)
and the relative-search engine (`relative_search.get_verse_words` /
`search_by_lemmas`), together with proofs and refutations of the spec's claims.

Python `dict`s are embedded as insertion-ordered association lists, Python
strings as `List Char` (wrapped in `String` at the interfaces), the SQLite
`words` table as a `List Token` in row (scan) order, and operations that can
raise in Python as `Except String`-valued functions whose `.error` values mark
exactly the program points where an exception escapes.
-/

namespace GreekBible

/-- Python whitespace test for `str.strip()` / `\s` (ASCII range, which is all
the source ever feeds it). -/
def pyIsSpace (c : Char) : Bool :=
  c = ' ' || c = '\t' || c = '\n' || c = '\r' || c = '\x0b' || c = '\x0c'

/-- Python `str.strip()` on a character list. -/
def pyStrip (s : List Char) : List Char :=
  (s.dropWhile pyIsSpace).reverse.dropWhile pyIsSpace |>.reverse

/-- Python `str.split(sep)` for a one-character separator: splits on every
occurrence and keeps empty fragments. -/
def pySplit (sep : Char) : List Char → List (List Char)
  | [] => [[]]
  | c :: rest =>
    let r := pySplit sep rest
    if c = sep then [] :: r
    else
      match r with
      | [] => [[c]]
      | h :: t => (c :: h) :: t

/-- Python string indexing `s[i]`: raises `IndexError` when out of range. -/
def pyCharAt (s : List Char) (i : Nat) : Except String Char :=
  match s.get? i with
  | some c => Except.ok c
  | none => Except.error ("IndexError: string index out of range")

/-- Python `str.replace(pat, '')` for a nonempty pattern: removes every
(leftmost, non-overlapping) occurrence of `pat`. -/
def pyRemoveAll (p : Char) (ps : List Char) : List Char → List Char
  | [] => []
  | c :: rest =>
    if (p :: ps).isPrefixOf (c :: rest) then
      pyRemoveAll p ps ((c :: rest).drop (ps.length + 1))
    else
      c :: pyRemoveAll p ps rest
termination_by s => s.length
decreasing_by
  all_goals simp only [List.length_drop, List.length_cons]
  all_goals omega

/-- Maximal run of characters satisfying `p` together with the remainder
(`takeWhile`/`dropWhile` in one step, used to model greedy regex pieces). -/
def spanP (p : Char → Bool) (s : List Char) : List Char × List Char :=
  (s.takeWhile p, s.dropWhile p)

/-- SQLite text ordering (`memcmp` on UTF-8 bytes = lexicographic on code
points), as the lexicographic order on the character lists.  Equivalent to
the byte order for every string the program stores. -/
def strLe (a b : String) : Prop := a.data < b.data ∨ a = b

instance : DecidableRel strLe := fun a b =>
  inferInstanceAs (Decidable (a.data < b.data ∨ a = b))

theorem strLe_total (a b : String) : strLe a b ∨ strLe b a := by
  rcases lt_trichotomy a.data b.data with h | h | h
  · exact Or.inl (Or.inl h)
  · exact Or.inl (Or.inr (String.ext h))
  · exact Or.inr (Or.inl h)

theorem strLe_trans {a b c : String} (h1 : strLe a b) (h2 : strLe b c) :
    strLe a c := by
  rcases h1 with h1 | h1
  · rcases h2 with h2 | h2
    · exact Or.inl (lt_trans h1 h2)
    · exact Or.inl (h2 ▸ h1)
  · exact h1 ▸ h2

theorem strLe_antisymm {a b : String} (h1 : strLe a b) (h2 : strLe b a) :
    a = b := by
  rcases h1 with h1 | h1
  · rcases h2 with h2 | h2
    · exact absurd h2 (lt_asymm h1)
    · exact h2.symm
  · exact h1

end GreekBible

namespace GreekBible.LxxImporter

/-!
## `lxx_importer.parse_packard_morph` (Scheme A)

The returned value is the Python result dict as an insertion-ordered
association list; `.error` marks the one program point (`morph_code[0]` in the
simple-POS fallback) where an `IndexError` can escape.
-/

/-- `case_map` of the noun/adjective/article branches. -/
def caseMapA : List (Char × String) :=
  [('N', "nominative"), ('G', "genitive"), ('D', "dative"),
   ('A', "accusative"), ('V', "vocative")]

/-- `gender_map` of the noun/adjective/article branches. -/
def genderMapA : List (Char × String) :=
  [('M', "masculine"), ('F', "feminine"), ('N', "neuter")]

/-- `tense_map` of the verb branch (keys are two-character codes). -/
def tenseMapA : List (String × String) :=
  [("PA", "present"), ("IA", "imperfect"), ("FA", "future"),
   ("AA", "aorist"), ("XA", "perfect"), ("YA", "pluperfect"),
   ("AI", "aorist")]

/-- `voice_map` of the verb branch. -/
def voiceMapA : List (Char × String) :=
  [('A', "active"), ('M', "middle"), ('P', "passive")]

/-- `mood_map` of the verb branch. -/
def moodMapA : List (Char × String) :=
  [('I', "indicative"), ('S', "subjunctive"), ('O', "optative"),
   ('D', "imperative"), ('N', "infinitive"), ('P', "participle")]

/-- `person_map` of the verb branch. -/
def personMapA : List (Char × String) :=
  [('1', "1st"), ('2', "2nd"), ('3', "3rd")]

/-- `simple_pos` of the single-character fallback. -/
def simplePosA : List (Char × String) :=
  [('P', "preposition"), ('C', "conjunction"), ('D', "adverb"),
   ('T', "particle"), ('X', "interjection")]

/-- Noun/adjective regex `X(\d+)-(.)(.)(.*)` (X = 'N' or 'A'), anchored at the
start: leading letter, a nonempty digit run, '-', two non-newline characters,
and the following non-newline run as group 4.  Returns
(case char, number char, group 4). -/
def nounLikeMatch (letter : Char) (s : List Char) : Option (Char × Char × List Char) :=
  match s with
  | c :: rest =>
    if c = letter then
      let (ds, afterDigits) := spanP (·.isDigit) rest
      if ds.isEmpty then none
      else
        match afterDigits with
        | '-' :: c1 :: c2 :: rest' =>
          if c1 ≠ '\n' && c2 ≠ '\n' then
            some (c1, c2, rest'.takeWhile (· ≠ '\n'))
          else none
        | _ => none
    else none
  | [] => none

/-- Verb regex `V([A-Z]{2})-([A-Z])([A-Z])([A-Z])(\d)?(.)?`, anchored at the
start.  Returns (tense pair, voice, mood, optional person digit, optional
trailing character). -/
def verbMatch (s : List Char) : Option (String × Char × Char × Option Char × Option Char) :=
  match s with
  | 'V' :: t1 :: t2 :: '-' :: v :: m :: tv :: rest =>
    if t1.isUpper && t2.isUpper && v.isUpper && m.isUpper && tv.isUpper then
      let (person, afterPerson) :=
        match rest with
        | d :: rest' => if d.isDigit then (some d, rest') else (none, rest)
        | [] => (none, rest)
      let number :=
        match afterPerson with
        | n :: _ => if n ≠ '\n' then some n else none
        | [] => none
      some (String.mk [t1, t2], v, m, person, number)
    else none
  | _ => none

/-- Article regex `RA?-?(.)(.)(.)?`, anchored at the start, as a boolean:
after 'R', an optional 'A', an optional '-', then at least two non-newline
characters (only the success of the match is ever used by the code). -/
def articleRegexMatches (s : List Char) : Bool :=
  match s with
  | 'R' :: t =>
    let ok2 : List Char → Bool := fun u =>
      match u with
      | c1 :: c2 :: _ => c1 ≠ '\n' && c2 ≠ '\n'
      | _ => false
    let afterDash : List Char → Bool := fun u =>
      ok2 u ||
      (match u with
       | '-' :: u' => ok2 u'
       | _ => false)
    afterDash t ||
    (match t with
     | 'A' :: t' => afterDash t'
     | _ => false)
  | _ => none = some 'x'

/-- Shared tail of the noun / adjective branches: case, number, gender fields
from the two positional characters and group 4. -/
def nounLikeFields (c1 c2 : Char) (g4 : List Char) : List (String × String) :=
  (match caseMapA.lookup c1 with
   | some v => [("case", v)]
   | none => []) ++
  (if c2 = 'S' then [("number", "singular")]
   else if c2 = 'P' then [("number", "plural")]
   else []) ++
  (if g4.isEmpty then []
   else
     match g4 with
     | [g] =>
       (match genderMapA.lookup g with
        | some v => [("gender", v)]
        | none => [])
     | _ => [])

/-- `parse_packard_morph` from `lxx_importer.py`.  The result dict is the
association list in insertion order; `.error` is the escaping `IndexError`. -/
def parse_packard_morph (morphCode : String) : Except String (List (String × String)) := do
  let s0 := morphCode.data
  -- if ':' in morph_code: morph_code = morph_code.split(':')[1]
  let s :=
    if s0.contains ':' then
      match pySplit ':' s0 with
      | _ :: x :: _ => x
      | _ => []
    else s0
  -- Noun pattern N(\d+)-(.)(.)(.*)
  match nounLikeMatch 'N' s with
  | some (c1, c2, g4) => return ("pos", "noun") :: nounLikeFields c1 c2 g4
  | none =>
  -- Verb pattern V([A-Z]{2})-([A-Z])([A-Z])([A-Z])(\d)?(.)?
  match verbMatch s with
  | some (tense, v, m, person, number) =>
    return ("pos", "verb") ::
      ((match tenseMapA.lookup tense with
        | some t => [("tense", t)]
        | none => []) ++
       (match voiceMapA.lookup v with
        | some t => [("voice", t)]
        | none => []) ++
       (match moodMapA.lookup m with
        | some t => [("mood", t)]
        | none => []) ++
       (match person with
        | some d =>
          (match personMapA.lookup d with
           | some t => [("person", t)]
           | none => [])
        | none => []) ++
       (match number with
        | some n =>
          if n = 'S' then [("number", "singular")]
          else if n = 'P' then [("number", "plural")]
          else []
        | none => []))
  | none =>
  -- Article pattern RA?-?(.)(.)(.)? (or startswith 'RA')
  if articleRegexMatches s || (['R', 'A']).isPrefixOf s then
    -- parts = morph_code.replace('RA-', '').replace('RA', '')
    let parts := pyRemoveAll 'R' ['A'] (pyRemoveAll 'R' ['A', '-'] s)
    if parts.length ≥ 2 then
      let caseCode := parts.getD 0 ' '
      let numberCode := parts.getD 1 ' '
      return ("pos", "pronoun") ::
        ((match caseMapA.lookup caseCode with
          | some v => [("case", v)]
          | none => []) ++
         (if numberCode = 'S' then [("number", "singular")]
          else if numberCode = 'P' then [("number", "plural")]
          else []) ++
         (if parts.length > 2 then
           (match genderMapA.lookup (parts.getD 2 ' ') with
            | some v => [("gender", v)]
            | none => [])
          else []))
    else
      return [("pos", "pronoun")]
  else
  -- Adjective pattern A(\d+)-(.)(.)(.*)
  match nounLikeMatch 'A' s with
  | some (c1, c2, g4) => return ("pos", "adjective") :: nounLikeFields c1 c2 g4
  | none => do
    -- if morph_code[0] in simple_pos: ...  (unguarded index: IndexError on '')
    let c0 ← pyCharAt s 0
    match simplePosA.lookup c0 with
    | some p => return [("pos", p)]
    | none =>
      -- warning printed, partial (empty) dict returned
      return []

end GreekBible.LxxImporter

namespace GreekBible.SetupDatabase

/-!
## `setup_database.parse_morphology` (Scheme B)

Every character access in the Python function is guarded by a length check,
so the embedding is a plain total function.
-/

/-- `pos_map`. -/
def posMapB : List (Char × String) :=
  [('N', "noun"), ('V', "verb"), ('A', "adjective"), ('R', "pronoun"),
   ('C', "conjunction"), ('D', "adverb"), ('P', "preposition"),
   ('T', "article"), ('I', "interjection"), ('X', "particle")]

/-- `tense_map`. -/
def tenseMapB : List (Char × String) :=
  [('P', "present"), ('I', "imperfect"), ('F', "future"),
   ('A', "aorist"), ('X', "perfect"), ('Y', "pluperfect")]

/-- `voice_map`. -/
def voiceMapB : List (Char × String) :=
  [('A', "active"), ('M', "middle"), ('P', "passive")]

/-- `mood_map`. -/
def moodMapB : List (Char × String) :=
  [('I', "indicative"), ('D', "imperative"), ('S', "subjunctive"),
   ('O', "optative"), ('N', "infinitive"), ('P', "participle")]

/-- `case_map`. -/
def caseMapB : List (Char × String) :=
  [('N', "nominative"), ('G', "genitive"), ('D', "dative"),
   ('A', "accusative"), ('V', "vocative")]

/-- `gender_map`. -/
def genderMapB : List (Char × String) :=
  [('M', "masculine"), ('F', "feminine"), ('N', "neuter")]

/-- The person string `c + 'rd'/'st'/'nd'` built by the verb branch. -/
def personStringB (c : Char) : String :=
  if c = '3' then String.mk [c] ++ "rd"
  else String.mk [c] ++ (if c = '1' then "st" else "nd")

/-- `parse_morphology` from `setup_database.py`: the result dict in insertion
order.  Total: every index is guarded by a length check in the source. -/
def parse_morphology (morphCode : String) : List (String × String) :=
  let s := morphCode.data
  if s.length < 2 then []
  else
    let c0 := s.getD 0 ' '
    let pos := (posMapB.lookup c0).getD (String.mk [c0])
    let posEntry := [("pos", pos)]
    if c0 = 'V' ∧ s.length ≥ 8 then
      posEntry ++
      (if s.length > 2 ∧ s.getD 2 ' ' ≠ '-' then
        [("person", personStringB (s.getD 2 ' '))]
       else []) ++
      (if s.length > 3 ∧ s.getD 3 ' ' ≠ '-' then
        [("tense", (tenseMapB.lookup (s.getD 3 ' ')).getD (String.mk [s.getD 3 ' ']))]
       else []) ++
      (if s.length > 4 ∧ s.getD 4 ' ' ≠ '-' then
        [("voice", (voiceMapB.lookup (s.getD 4 ' ')).getD (String.mk [s.getD 4 ' ']))]
       else []) ++
      (if s.length > 5 ∧ s.getD 5 ' ' ≠ '-' then
        [("mood", (moodMapB.lookup (s.getD 5 ' ')).getD (String.mk [s.getD 5 ' ']))]
       else []) ++
      (if s.length > 6 ∧ s.getD 6 ' ' ≠ '-' then
        [("case", (caseMapB.lookup (s.getD 6 ' ')).getD (String.mk [s.getD 6 ' ']))]
       else []) ++
      (if s.length > 7 ∧ s.getD 7 ' ' ≠ '-' then
        [("number", if s.getD 7 ' ' = 'S' then "singular" else "plural")]
       else []) ++
      (if s.length > 8 ∧ s.getD 8 ' ' ≠ '-' then
        [("gender", (genderMapB.lookup (s.getD 8 ' ')).getD (String.mk [s.getD 8 ' ']))]
       else [])
    else if (c0 = 'N' ∨ c0 = 'A' ∨ c0 = 'R' ∨ c0 = 'T') ∧ s.length ≥ 8 then
      posEntry ++
      (if s.length > 6 ∧ s.getD 6 ' ' ≠ '-' then
        [("case", (caseMapB.lookup (s.getD 6 ' ')).getD (String.mk [s.getD 6 ' ']))]
       else []) ++
      (if s.length > 7 ∧ s.getD 7 ' ' ≠ '-' then
        [("number", if s.getD 7 ' ' = 'S' then "singular" else "plural")]
       else []) ++
      (if s.length > 8 ∧ s.getD 8 ' ' ≠ '-' then
        [("gender", (genderMapB.lookup (s.getD 8 ' ')).getD (String.mk [s.getD 8 ' ']))]
       else [])
    else
      posEntry

end GreekBible.SetupDatabase

namespace GreekBible.QueryParser

open GreekBible

/-!
## `query_parser.py`: tables, `SearchTerm._parse_morphology`, `parse_query`

Python regexes are embedded as explicit scanners over `List Char`; every
scanner mirrors the greedy/backtracking behaviour of the concrete pattern on
the (always pre-stripped) strings the code feeds it.  `Except` marks the
program points where Python indexes into a string (`codes[0]`).
-/

/-- Python `\w` (word character).  The source only ever distinguishes this on
ASCII bracketed tokens such as `[article]`; non-ASCII word characters behave
identically for every claim below because all special-token names are ASCII. -/
def pyWordChar (c : Char) : Bool :=
  c.isAlphanum || c = '_'

/-- `MORPH_CODE_ORDER`: the category tables in their load-bearing order. -/
def MORPH_CODE_ORDER : List (String × List (Char × String)) :=
  [("pos",
    [('N', "noun"), ('V', "verb"), ('J', "adjective"), ('D', "adverb"),
     ('C', "conjunction"), ('P', "preposition"), ('R', "pronoun"),
     ('T', "particle"), ('I', "interjection")]),
   ("tense",
    [('p', "present"), ('i', "imperfect"), ('f', "future"),
     ('a', "aorist"), ('r', "perfect"), ('l', "pluperfect")]),
   ("voice",
    [('A', "active"), ('M', "middle"), ('P', "passive")]),
   ("mood",
    [('I', "indicative"), ('S', "subjunctive"), ('O', "optative"),
     ('M', "imperative"), ('N', "infinitive"), ('p', "participle")]),
   ("person",
    [('1', "1st"), ('2', "2nd"), ('3', "3rd")]),
   ("case",
    [('n', "nominative"), ('g', "genitive"), ('d', "dative"),
     ('a', "accusative"), ('v', "vocative")]),
   ("number",
    [('s', "singular"), ('p', "plural")]),
   ("gender",
    [('m', "masculine"), ('f', "feminine"), ('u', "neuter")])]

/-- `BOOK_ABBREVIATIONS` from `query_parser.py` (exact, case-sensitive keys). -/
def BOOK_ABBREVIATIONS : List (String × String) :=
  [("Matt", "01"), ("Matt.", "01"), ("Matthew", "01"),
   ("Mark", "02"), ("Mk", "02"), ("Mk.", "02"),
   ("Luke", "03"), ("Lk", "03"), ("Lk.", "03"),
   ("John", "04"), ("Jn", "04"), ("Jn.", "04"),
   ("Acts", "05"), ("Ac", "05"), ("Ac.", "05"),
   ("Rom", "06"), ("Rom.", "06"), ("Romans", "06"),
   ("1Cor", "07"), ("1Cor.", "07"), ("1Corinthians", "07"),
   ("2Cor", "08"), ("2Cor.", "08"), ("2Corinthians", "08"),
   ("Gal", "09"), ("Gal.", "09"), ("Galatians", "09"),
   ("Eph", "10"), ("Eph.", "10"), ("Ephesians", "10"),
   ("Phil", "11"), ("Phil.", "11"), ("Philippians", "11"),
   ("Col", "12"), ("Col.", "12"), ("Colossians", "12"),
   ("1Thess", "13"), ("1Thess.", "13"), ("1Th", "13"), ("1Thessalonians", "13"),
   ("2Thess", "14"), ("2Thess.", "14"), ("2Th", "14"), ("2Thessalonians", "14"),
   ("1Tim", "15"), ("1Tim.", "15"), ("1Ti", "15"), ("1Timothy", "15"),
   ("2Tim", "16"), ("2Tim.", "16"), ("2Ti", "16"), ("2Timothy", "16"),
   ("Titus", "17"), ("Tit", "17"), ("Tit.", "17"),
   ("Phlm", "18"), ("Phlm.", "18"), ("Phm", "18"), ("Philemon", "18"),
   ("Heb", "19"), ("Heb.", "19"), ("Hebrews", "19"),
   ("Jas", "20"), ("Jas.", "20"), ("James", "20"),
   ("1Pet", "21"), ("1Pet.", "21"), ("1Pe", "21"), ("1Peter", "21"),
   ("2Pet", "22"), ("2Pet.", "22"), ("2Pe", "22"), ("2Peter", "22"),
   ("1John", "23"), ("1Jn", "23"), ("1Jn.", "23"),
   ("2John", "24"), ("2Jn", "24"), ("2Jn.", "24"),
   ("3John", "25"), ("3Jn", "25"), ("3Jn.", "25"),
   ("Jude", "26"), ("Jud", "26"), ("Jud.", "26"),
   ("Rev", "27"), ("Rev.", "27"), ("Re", "27"), ("Revelation", "27")]

/-- One entry of `SPECIAL_TOKENS`: the constrained part of speech and the
optional `morph_prefix` (`'RA'` for `[article]`). -/
structure SpecialTokenSpec where
  pos : String
  morphPfx : Option String
deriving DecidableEq

/-- `SPECIAL_TOKENS`. -/
def SPECIAL_TOKENS : List (String × SpecialTokenSpec) :=
  [("[article]", ⟨"pronoun", some ("RA")⟩),
   ("[noun]", ⟨"noun", none⟩),
   ("[verb]", ⟨"verb", none⟩),
   ("[adjective]", ⟨"adjective", none⟩),
   ("[pronoun]", ⟨"pronoun", none⟩),
   ("[preposition]", ⟨"preposition", none⟩),
   ("[conjunction]", ⟨"conjunction", none⟩),
   ("[particle]", ⟨"particle", none⟩),
   ("[adverb]", ⟨"adverb", none⟩)]

/-- `SearchTerm`: `lemma`/`special_token` exactly as the Python attributes
(`none` = Python `None`; the empty string stays a `some`), `morphology` the
result dict of `_parse_morphology` in insertion order. -/
structure SearchTerm where
  lemma_ : Option String
  special_token : Option String
  morphology : List (String × String)
deriving DecidableEq

/-- `Query`. -/
structure Query where
  terms : List SearchTerm
  proximity : Option Nat
  whole_nt : Bool
  book_codes : List String
deriving DecidableEq

/-- The POS pre-step of `SearchTerm._parse_morphology`: it consumes an
uppercase leading character only.  The `codes[0]` access (guarded in Python
by the `if codes` short-circuit) is the only `Except` site of the parser. -/
def posPreStep (codes : List Char) :
    Except String (List (String × String) × List Char) :=
  if codes.isEmpty then pure (([] : List (String × String)), ([] : List Char))
  else do
    let c0 ← pyCharAt codes 0
    if c0.isUpper then
      match ((MORPH_CODE_ORDER.lookup ("pos")).getD []).lookup c0 with
      | some v => pure ([(("pos" : String), v)], [c0])
      | none => pure ([], [])
    else pure ([], [])

/-- One iteration of the category loop of `_parse_morphology`: skip `pos`,
otherwise take the first still-unused character the category's table knows. -/
def morphFoldStep (codes : List Char)
    (acc : List (String × String) × List Char)
    (cat : String × List (Char × String)) :
    List (String × String) × List Char :=
  if cat.1 = "pos" then acc
  else
    match codes.findSome? (fun c =>
        if c ∈ acc.2 then none
        else (cat.2.lookup c).map (fun v => (c, v))) with
    | some (c, v) => (acc.1 ++ [(cat.1, v)], acc.2 ++ [c])
    | none => acc

/-- The category loop over `MORPH_CODE_ORDER` after the POS pre-step. -/
def parseMorphCodes (codes : List Char) :
    Except String (List (String × String)) := do
  let init ← posPreStep codes
  pure (MORPH_CODE_ORDER.foldl (morphFoldStep codes) init).1

/-- The book-restriction regex `\[([^\]]+)\]\s*\+\s*(.+)` applied with
`re.match` to the stripped query string: returns (group 1, group 2).
Group 2 stops at a newline (`.` does not match `'\n'`) and must be nonempty;
on a stripped input the backtracking cases of `\s*(.+)` cannot arise. -/
def bookMatch (s : List Char) : Option (List Char × List Char) :=
  match s with
  | c0 :: rest =>
    if c0 = '[' then
      let content := rest.takeWhile (· ≠ ']')
      if content.isEmpty then none
      else
        -- when nonempty, `dropWhile (· ≠ ']')` necessarily starts with ']'
        match rest.dropWhile (· ≠ ']') with
        | _ :: rest2 =>
          match rest2.dropWhile pyIsSpace with
          | c3 :: rest4 =>
            if c3 = '+' then
              let g2 := (rest4.dropWhile pyIsSpace).takeWhile (· ≠ '\n')
              if g2.isEmpty then none else some (content, g2)
            else none
          | [] => none
        | [] => none
    else none
  | [] => none

/-- Digit run to a natural number (Python `int` on a `\d+` capture). -/
def digitsToNat (ds : List Char) : Nat :=
  ds.foldl (fun acc c => acc * 10 + (c.toNat - ('0').toNat)) 0

/-- The proximity regex `\s+W(\d+)\s*$` (case-insensitive) searched in the
stripped remainder: on a stripped string it matches exactly when the string
ends in whitespace run + `W`/`w` + digit run.  Returns (prefix before the
whitespace run, parsed window). -/
def proxMatch (s : List Char) : Option (List Char × Nat) :=
  let r := s.reverse
  let (dsr, r1) := spanP (·.isDigit) r
  if dsr.isEmpty then none
  else
    match r1 with
    | w :: r2 =>
      if w = 'W' || w = 'w' then
        let (wsr, r3) := spanP pyIsSpace r2
        if wsr.isEmpty then none
        else some (r3.reverse, digitsToNat dsr.reverse)
      else none
    | [] => none

/-- The special-token regex `\[(\w+)\](?:@(.+))?` applied with `re.match` to a
term string: returns (word, codes), `codes = []` when the optional group is
absent or empty.  Trailing text beyond the match is dropped, as with
`re.match`. -/
def specialMatch (t : List Char) : Option (List Char × List Char) :=
  match t with
  | '[' :: rest =>
    let w := rest.takeWhile pyWordChar
    let after := rest.dropWhile pyWordChar
    if w.isEmpty then none
    else
      match after with
      | ']' :: '@' :: rest3 => some (w, rest3.takeWhile (· ≠ '\n'))
      | ']' :: _ => some (w, [])
      | _ => none
  | _ => none

/-- The book-restriction / wildcard stage of `parse_query`: returns the book
codes (unknown abbreviations silently dropped by the `filterMap`), the
remaining query string, and the wildcard flag.  The wildcard is an `elif`,
so a matching book restriction suppresses it. -/
def preParse (s0 : List Char) : List String × List Char × Bool :=
  match bookMatch s0 with
  | some (content, g2) =>
    let abbrevs := (pySplit ',' content).map pyStrip
    let codes := abbrevs.filterMap
      (fun a => BOOK_ABBREVIATIONS.lookup (String.mk a))
    (codes, pyStrip g2, false)
  | none =>
    match s0 with
    | c0 :: rest =>
      if c0 = '*' then (([] : List String), pyStrip rest, true)
      else (([] : List String), s0, false)
    | [] => (([] : List String), s0, false)

/-- The proximity-suffix stage of `parse_query`. -/
def proxStep (s1 : List Char) : Option Nat × List Char :=
  match proxMatch s1 with
  | some (pre, n) => (some n, pyStrip pre)
  | none => (none, s1)

/-- One iteration of the term loop of `parse_query`: empty fragments are
skipped, a bracketed fragment becomes a special-token term, a fragment with
`@` becomes lemma plus morphology codes, anything else a bare-lemma term. -/
def parseTermStep (acc : List SearchTerm) (ts : List Char) :
    Except String (List SearchTerm) := do
  if ts.isEmpty then pure acc
  else
    match specialMatch ts with
    | some (w, codes) => do
      let m ← parseMorphCodes codes
      pure (acc ++ [⟨none, some ("[" ++ String.mk w ++ "]"), m⟩])
    | none =>
      if ts.contains '@' then do
        let lem := pyStrip (ts.takeWhile (· ≠ '@'))
        let codes := pyStrip ((ts.dropWhile (· ≠ '@')).drop 1)
        let m ← parseMorphCodes codes
        pure (acc ++ [⟨some (String.mk lem), none, m⟩])
      else do
        let m ← parseMorphCodes []
        pure (acc ++ [⟨some (String.mk ts), none, m⟩])

/-- `parse_query` from `query_parser.py`, with `Except` threading the string
indexing of `_parse_morphology`. -/
def parse_queryE (qs : String) : Except String Query := do
  let (bookCodes, s1, wholeNt) := preParse (pyStrip qs.data)
  let (prox, s2) := proxStep s1
  let terms ← ((pySplit '&' s2).map pyStrip).foldlM parseTermStep []
  return ⟨terms, prox, wholeNt, bookCodes⟩

end GreekBible.QueryParser

namespace GreekBible.QueryParser

/-!
## Token store and query execution

The SQLite `words` table is embedded as a `List Token` in row (rowid/scan)
order; `NULL`able columns are `Option String`.  `ORDER BY` is a stable
insertion sort on the ordering key (SQLite leaves the relative order of
key-ties unspecified; the stable sort fixes the scan order, matching a naive
table scan), `DISTINCT` keeps the first-scanned row of each duplicate class
(the behaviour observed of SQLite), and `LIMIT n` is `List.take n`.
-/

/-- One row of the `words` table. -/
structure Token where
  book_code : String
  chapter : Nat
  verse : Nat
  word_position : Nat
  word : String
  lemma_ : String
  morph_code : Option String
  pos : Option String
  tense : Option String
  voice : Option String
  mood : Option String
  case_value : Option String
  number : Option String
  gender : Option String
  person : Option String
  corpus : String
deriving DecidableEq

/-- One row of the `books` table. -/
structure Book where
  book_code : String
  book_name : String
  book_abbrev : String
  corpus : String
deriving DecidableEq

/-- The result-dict shape shared by the single-term and the proximity search
(keys `book_code, chapter, verse, word, lemma, morph_code, pos, tense, voice,
mood, case, number, gender, person`). -/
structure MatchRecord where
  book_code : String
  chapter : Nat
  verse : Nat
  word : String
  lemma_ : String
  morph_code : Option String
  pos : Option String
  tense : Option String
  voice : Option String
  mood : Option String
  case_ : Option String
  number : Option String
  gender : Option String
  person : Option String
deriving DecidableEq

/-- Projection of a `words` row to the result dict. -/
def matchRecord (t : Token) : MatchRecord :=
  ⟨t.book_code, t.chapter, t.verse, t.word, t.lemma_, t.morph_code, t.pos,
   t.tense, t.voice, t.mood, t.case_value, t.number, t.gender, t.person⟩

/-- The `ORDER BY (book_code, chapter, verse, word_position)` relation:
lexicographic on the four columns. -/
def tokLe (a b : Token) : Prop :=
  a.book_code.data < b.book_code.data ∨
  (a.book_code = b.book_code ∧
    (a.chapter < b.chapter ∨
    (a.chapter = b.chapter ∧
      (a.verse < b.verse ∨
      (a.verse = b.verse ∧ a.word_position ≤ b.word_position)))))

instance : DecidableRel tokLe := fun a b =>
  inferInstanceAs (Decidable (_ ∨ _))

instance : IsTotal Token tokLe := by
  constructor
  intro a b
  unfold tokLe
  rcases lt_trichotomy a.book_code.data b.book_code.data with h | h | h
  · exact Or.inl (Or.inl h)
  · have hb : a.book_code = b.book_code := String.ext h
    rcases Nat.lt_trichotomy a.chapter b.chapter with h1 | h1 | h1
    · exact Or.inl (Or.inr ⟨hb, Or.inl h1⟩)
    · rcases Nat.lt_trichotomy a.verse b.verse with h2 | h2 | h2
      · exact Or.inl (Or.inr ⟨hb, Or.inr ⟨h1, Or.inl h2⟩⟩)
      · rcases Nat.le_total a.word_position b.word_position with h3 | h3
        · exact Or.inl (Or.inr ⟨hb, Or.inr ⟨h1, Or.inr ⟨h2, h3⟩⟩⟩)
        · exact Or.inr (Or.inr ⟨hb.symm, Or.inr ⟨h1.symm, Or.inr ⟨h2.symm, h3⟩⟩⟩)
      · exact Or.inr (Or.inr ⟨hb.symm, Or.inr ⟨h1.symm, Or.inl h2⟩⟩)
    · exact Or.inr (Or.inr ⟨hb.symm, Or.inl h1⟩)
  · exact Or.inr (Or.inl h)

instance : IsTrans Token tokLe := by
  constructor
  intro a b c hab hbc
  unfold tokLe at *
  rcases hab with hab | ⟨eb1, hab⟩
  · rcases hbc with hbc | ⟨eb2, _⟩
    · exact Or.inl (lt_trans hab hbc)
    · exact Or.inl (eb2 ▸ hab)
  · rcases hbc with hbc | ⟨eb2, hbc⟩
    · exact Or.inl (eb1 ▸ hbc)
    · refine Or.inr ⟨eb1.trans eb2, ?_⟩
      rcases hab with hab | ⟨ec1, hab⟩
      · rcases hbc with hbc | ⟨ec2, _⟩
        · exact Or.inl (lt_trans hab hbc)
        · exact Or.inl (ec2 ▸ hab)
      · rcases hbc with hbc | ⟨ec2, hbc⟩
        · exact Or.inl (ec1 ▸ hbc)
        · refine Or.inr ⟨ec1.trans ec2, ?_⟩
          rcases hab with hab | ⟨ev1, hab⟩
          · rcases hbc with hbc | ⟨ev2, _⟩
            · exact Or.inl (lt_trans hab hbc)
            · exact Or.inl (ev2 ▸ hab)
          · rcases hbc with hbc | ⟨ev2, hbc⟩
            · exact Or.inl (ev1 ▸ hbc)
            · exact Or.inr ⟨ev1.trans ev2, le_trans hab hbc⟩

/-- Stable sort implementing `ORDER BY book_code, chapter, verse,
word_position`. -/
def tokenSort (l : List Token) : List Token := l.insertionSort tokLe

/-- `SearchTerm.to_sql_conditions` as a row predicate (the `WHERE` clause the
term contributes): optional exact-lemma equality, the special-token
constraints (`pos` equality and, for `[article]`, the `morph_code LIKE 'RA%'`
prefix test — `NULL LIKE` is false), and one equality per decoded morphology
field (`case` targets the `case_value` column; `NULL` never equals). -/
def termPred (t : SearchTerm) (tok : Token) : Bool :=
  (match t.lemma_ with
   | some l => if l = "" then true else tok.lemma_ = l
   | none => true) &&
  (match t.special_token with
   | some st =>
     (match SPECIAL_TOKENS.lookup st with
      | some spec =>
        (tok.pos = some spec.pos) &&
        (match spec.morphPfx with
         | some pfx =>
           (match tok.morph_code with
            | some mc => pfx.isPrefixOf mc
            | none => false)
         | none => true)
      | none => true)
   | none => true) &&
  t.morphology.all (fun fv =>
    match fv.1 with
    | "pos" => tok.pos = some fv.2
    | "tense" => tok.tense = some fv.2
    | "voice" => tok.voice = some fv.2
    | "mood" => tok.mood = some fv.2
    | "person" => tok.person = some fv.2
    | "case" => tok.case_value = some fv.2
    | "number" => tok.number = some fv.2
    | "gender" => tok.gender = some fv.2
    | _ => false)

/-- Book restriction: `book_code IN (...)` when the list is nonempty. -/
def bookOk (books : List String) (tok : Token) : Bool :=
  books.isEmpty || books.contains tok.book_code

/-- Corpus restriction: `corpus IN (...)`. -/
def corpusOk (corpora : List String) (tok : Token) : Bool :=
  corpora.contains tok.corpus

/-- `SELECT DISTINCT` over the 14-column projection: keeps the first-scanned
row of every duplicate class (rows keep their `word_position` for the
subsequent `ORDER BY`). -/
def distinctRows (l : List Token) : List Token :=
  l.foldl (fun acc t =>
    if acc.any (fun u => matchRecord u = matchRecord t) then acc
    else acc ++ [t]) []

/-- The single-term query: `WHERE` filter, `DISTINCT`, `ORDER BY`, `LIMIT
500` — as the underlying token list (before the dict projection). -/
def singleTermTokens (db : List Token) (term : SearchTerm)
    (books : List String) (corpora : List String) : List Token :=
  (tokenSort (distinctRows (db.filter (fun tok =>
    termPred term tok && bookOk books tok && corpusOk corpora tok)))).take 500

/-- `max_distance = query.proximity if query.proximity else 1`: Python
truthiness sends both `None` and `0` to the default 1. -/
def maxDistance (prox : Option Nat) : Nat :=
  match prox with
  | some p => if p = 0 then 1 else p
  | none => 1

/-- The anchor query of `execute_proximity_search`: all matches of term 0
under book and corpus restriction, ordered. -/
def anchorTokens (db : List Token) (t0 : SearchTerm)
    (books : List String) (corpora : List String) : List Token :=
  tokenSort (db.filter (fun tok =>
    termPred t0 tok && bookOk books tok && corpusOk corpora tok))

/-- The per-term continuation lookup: first token (by `word_position`) of the
anchor's verse with `last_pos < word_position ≤ last_pos + max_distance`
matching the term.  Mirrors the SQL exactly — note it restricts neither
corpus nor books. -/
def findNextTok (db : List Token) (t : SearchTerm) (b : String)
    (ch v lastPos window : Nat) : Option Token :=
  ((db.filter (fun tok =>
      tok.book_code = b && tok.chapter = ch && tok.verse = v &&
      lastPos < tok.word_position && tok.word_position ≤ lastPos + window &&
      termPred t tok)).insertionSort
    (fun a b => a.word_position ≤ b.word_position)).head?

/-- The inner loop over terms 1..n-1: each found token becomes the new
anchor position; a single failure discards the whole candidate. -/
def continueSpan (db : List Token) (b : String) (ch v : Nat) (window : Nat) :
    List SearchTerm → Nat → Option (List Token)
  | [], _ => some []
  | t :: rest, lastPos =>
    match findNextTok db t b ch v lastPos window with
    | some tok =>
      match continueSpan db b ch v window rest tok.word_position with
      | some toks => some (tok :: toks)
      | none => none
    | none => none

/-- The whole matched span grown from one anchor (anchor first, then the
continuation tokens in term order), if every subsequent term is satisfied. -/
def matchSpan (db : List Token) (terms : List SearchTerm) (anchor : Token)
    (window : Nat) : Option (List Token) :=
  match continueSpan db anchor.book_code anchor.chapter anchor.verse window
      terms.tail anchor.word_position with
  | some toks => some (anchor :: toks)
  | none => none

/-- All accepted matches of `execute_proximity_search`, in anchor order. -/
def proxSpans (db : List Token) (q : Query) (corpora : List String) :
    List (List Token) :=
  match q.terms with
  | [] => []
  | t0 :: _ =>
    (anchorTokens db t0 q.book_codes corpora).filterMap
      (fun a => matchSpan db q.terms a (maxDistance q.proximity))

/-- The token sequence underlying the proximity-search result list. -/
def proxTokens (db : List Token) (q : Query) (corpora : List String) :
    List Token :=
  (proxSpans db q corpora).flatten

/-- `execute_proximity_search`: one result dict per matched token, capped by
`results[:500]`. -/
def execute_proximity_search (db : List Token) (q : Query)
    (corpora : List String) : List MatchRecord :=
  ((proxTokens db q corpora).map matchRecord).take 500

/-- `execute_query`: empty term list → no results; one term → direct lookup;
otherwise proximity search. -/
def execute_query (db : List Token) (q : Query) (corpora : List String) :
    List MatchRecord :=
  match q.terms with
  | [] => []
  | [term] => (singleTermTokens db term q.book_codes corpora).map matchRecord
  | _ => execute_proximity_search db q corpora

end GreekBible.QueryParser

namespace GreekBible.RelativeSearch

open GreekBible GreekBible.QueryParser

/-!
## `relative_search.py`: `get_verse_words` and `search_by_lemmas`

`get_verse_words` is split into the SQL row fetch (`distinctLemmaPos`) and the
pure row processing (`get_verse_wordsRows`), because the spec's invariance
claim quantifies over reorderings of the fetched rows.
-/

/-- `POS_WEIGHTS`. -/
def POS_WEIGHTS : List (String × Nat) :=
  [("verb", 3), ("noun", 3), ("adjective", 3), ("adverb", 3),
   ("pronoun", 1), ("article", 1), ("preposition", 1), ("particle", 1),
   ("conjunction", 1), ("interjection", 1)]

/-- `POS_WEIGHTS.get(pos, 1)` (a `NULL` part of speech also falls to 1). -/
def posWeight (pos : Option String) : Nat :=
  match pos with
  | some p => (POS_WEIGHTS.lookup p).getD 1
  | none => 1

/-- One entry of the `lemma_dict` of `get_verse_words`. -/
structure WeightedLemma where
  lemma_ : String
  pos : Option String
  weight : Nat
deriving DecidableEq

/-- `SELECT DISTINCT lemma, pos ... ORDER BY lemma` (no corpus filter, as in
the source): first-scanned representative per (lemma, pos) pair, stably
sorted by lemma. -/
def distinctLemmaPos (db : List Token) (b : String) (ch v : Nat) :
    List (String × Option String) :=
  (((db.filter (fun t => t.book_code = b && t.chapter = ch && t.verse = v)).map
      (fun t => (t.lemma_, t.pos))).foldl
    (fun acc r => if r ∈ acc then acc else acc ++ [r]) []).insertionSort
    (fun a b => strLe a.1 b.1)

/-- One iteration of the row loop of `get_verse_words`: skip empty lemmas;
first sight of a lemma appends an entry; a strictly higher weight replaces
the stored entry in place (ties keep the earlier part of speech). -/
def insertRow (acc : List WeightedLemma) (row : String × Option String) :
    List WeightedLemma :=
  if row.1 = "" then acc
  else
    let w := posWeight row.2
    if acc.any (fun e => e.lemma_ = row.1) then
      acc.map (fun e =>
        if e.lemma_ = row.1 ∧ w > e.weight then ⟨row.1, row.2, w⟩ else e)
    else acc ++ [⟨row.1, row.2, w⟩]

/-- `sorted(..., key=lambda x: (-x['weight'], x['lemma']))` as a relation:
weight descending, then lemma ascending. -/
def wlRel (a b : WeightedLemma) : Prop :=
  b.weight < a.weight ∨ (a.weight = b.weight ∧ strLe a.lemma_ b.lemma_)

instance : DecidableRel wlRel := fun a b =>
  inferInstanceAs (Decidable (_ ∨ _))

instance : IsTotal WeightedLemma wlRel := by
  constructor
  intro a b
  unfold wlRel
  rcases Nat.lt_trichotomy a.weight b.weight with h | h | h
  · exact Or.inr (Or.inl h)
  · rcases strLe_total a.lemma_ b.lemma_ with h' | h'
    · exact Or.inl (Or.inr ⟨h, h'⟩)
    · exact Or.inr (Or.inr ⟨h.symm, h'⟩)
  · exact Or.inl (Or.inl h)

instance : IsTrans WeightedLemma wlRel := by
  constructor
  intro a b c hab hbc
  unfold wlRel at *
  rcases hab with h | ⟨he, hl⟩
  · rcases hbc with h' | ⟨he', _⟩
    · exact Or.inl (lt_trans h' h)
    · exact Or.inl (he' ▸ h)
  · rcases hbc with h' | ⟨he', hl'⟩
    · exact Or.inl (he ▸ h')
    · exact Or.inr ⟨he.trans he', strLe_trans hl hl'⟩

/-- The pure core of `get_verse_words` on the fetched (lemma, pos) rows. -/
def get_verse_wordsRows (rows : List (String × Option String)) :
    List WeightedLemma :=
  (rows.foldl insertRow []).insertionSort wlRel

/-- `get_verse_words`. -/
def get_verse_words (db : List Token) (b : String) (ch v : Nat) :
    List WeightedLemma :=
  get_verse_wordsRows (distinctLemmaPos db b ch v)

/-- One output row of `search_by_lemmas`. -/
structure RankedVerse where
  book_code : String
  book_name : String
  chapter : Nat
  verse : Nat
  corpus : String
  verse_text : String
  matched_lemmas : List String
  score : Nat
  match_count : Nat
deriving DecidableEq

/-- `lemma_weights.get(l, 1)`: the dict comprehension keeps the last entry
per lemma, hence the reversed lookup. -/
def lemmaWeight (lemmas : List (String × Nat)) (l : String) : Nat :=
  (lemmas.reverse.lookup l).getD 1

/-- The `ORDER BY book_code, chapter, verse` relation on candidate keys. -/
def vkLe (a b : String × Nat × Nat × String) : Prop :=
  a.1.data < b.1.data ∨
  (a.1 = b.1 ∧ (a.2.1 < b.2.1 ∨ (a.2.1 = b.2.1 ∧ a.2.2.1 ≤ b.2.2.1)))

instance : DecidableRel vkLe := fun a b =>
  inferInstanceAs (Decidable (_ ∨ _))

/-- The candidate `GROUP BY book_code, chapter, verse, corpus` keys of
`search_by_lemmas` (matching rows only, source verse excluded regardless of
corpus), `ORDER BY book_code, chapter, verse`. -/
def candidateKeys (db : List Token) (lemmaList : List String)
    (srcB : String) (srcCh srcV : Nat) (corpora : List String) :
    List (String × Nat × Nat × String) :=
  (((db.filter (fun t =>
      t.lemma_ ∈ lemmaList && t.corpus ∈ corpora &&
      !(t.book_code = srcB && t.chapter = srcCh && t.verse = srcV))).map
    (fun t => (t.book_code, t.chapter, t.verse, t.corpus))).foldl
    (fun acc k => if k ∈ acc then acc else acc ++ [k]) []).insertionSort
    vkLe

/-- One word of the candidate-verse scan: a matching word is wrapped in
`<strong>` tags and its lemma added (once) to the matched set. -/
def scanStep (lemmaList : List String)
    (acc : List String × List String) (wl : String × String) :
    List String × List String :=
  if wl.2 ∈ lemmaList then
    (acc.1 ++ ["<strong>" ++ wl.1 ++ "</strong>"],
     if wl.2 ∈ acc.2 then acc.2 else acc.2 ++ [wl.2])
  else (acc.1 ++ [wl.1], acc.2)

/-- The verse scan of one candidate: words in position order (same verse and
corpus), folded through `scanStep`. -/
def scanVerse (db : List Token) (lemmaList : List String)
    (k : String × Nat × Nat × String) : List String × List String :=
  (((db.filter (fun t =>
      t.book_code = k.1 && t.chapter = k.2.1 && t.verse = k.2.2.1 &&
      t.corpus = k.2.2.2)).insertionSort
    (fun a b => a.word_position ≤ b.word_position)).map
    (fun t => (t.word, t.lemma_))).foldl (scanStep lemmaList) ([], [])

/-- `SELECT book_name FROM books WHERE book_code = ? AND corpus = ? LIMIT 1`
with the `Book {code}` fallback. -/
def bookNameFor (books : List Book) (code corpus : String) : String :=
  match books.find? (fun bk => bk.book_code = code && bk.corpus = corpus) with
  | some bk => bk.book_name
  | none => "Book " ++ code

/-- Build one `search_by_lemmas` result row for a candidate verse. -/
def rankVerse (db : List Token) (books : List Book)
    (lemmas : List (String × Nat)) (lemmaList : List String)
    (k : String × Nat × Nat × String) : RankedVerse :=
  let scan := scanVerse db lemmaList k
  { book_code := k.1
    book_name := bookNameFor books k.1 k.2.2.2
    chapter := k.2.1
    verse := k.2.2.1
    corpus := k.2.2.2
    verse_text := String.mk (pyStrip (String.intercalate " " scan.1).data)
    matched_lemmas := scan.2
    score := (scan.2.map (lemmaWeight lemmas)).sum
    match_count := scan.2.length }

/-- `results.sort(key=lambda x: (x['score'], x['match_count']),
reverse=True)` as a relation: (score, match_count) lexicographically
descending (non-strict). -/
def rvRel (a b : RankedVerse) : Prop :=
  b.score < a.score ∨ (a.score = b.score ∧ b.match_count ≤ a.match_count)

instance : DecidableRel rvRel := fun a b =>
  inferInstanceAs (Decidable (_ ∨ _))

instance : IsTotal RankedVerse rvRel := by
  constructor
  intro a b
  unfold rvRel
  rcases Nat.lt_trichotomy a.score b.score with h | h | h
  · exact Or.inr (Or.inl h)
  · rcases le_total a.match_count b.match_count with h' | h'
    · exact Or.inr (Or.inr ⟨h.symm, h'⟩)
    · exact Or.inl (Or.inr ⟨h, h'⟩)
  · exact Or.inl (Or.inl h)

instance : IsTrans RankedVerse rvRel := by
  constructor
  intro a b c hab hbc
  unfold rvRel at *
  rcases hab with h | ⟨he, hl⟩
  · rcases hbc with h' | ⟨he', _⟩
    · exact Or.inl (lt_trans h' h)
    · exact Or.inl (he' ▸ h)
  · rcases hbc with h' | ⟨he', hl'⟩
    · exact Or.inl (he ▸ h')
    · exact Or.inr ⟨he.trans he', le_trans hl' hl⟩

/-- `search_by_lemmas`. -/
def search_by_lemmas (db : List Token) (books : List Book)
    (lemmas : List (String × Nat)) (srcB : String) (srcCh srcV : Nat)
    (corpora : List String) : List RankedVerse :=
  if lemmas.isEmpty then []
  else
    let lemmaList := (lemmas.map (·.1)).filter (· ≠ "")
    if lemmaList.isEmpty then []
    else
      ((candidateKeys db lemmaList srcB srcCh srcV corpora).map
        (rankVerse db books lemmas lemmaList)).insertionSort rvRel

end GreekBible.RelativeSearch

namespace GreekBible

open GreekBible.QueryParser GreekBible.RelativeSearch

/-!
## Proof-support definitions and concrete example stores

`projWL`/`projRel`/`wmax` support the order-invariance analysis of
`get_verse_words`; the `ex*` stores are tiny concrete `words` tables
exercising the executor and the relative search.
-/

/-- The (lemma, weight) projection of a `get_verse_words` entry. -/
def projWL (e : WeightedLemma) : String × Nat := (e.lemma_, e.weight)

/-- `wlRel` transported along `projWL`: weight descending, lemma ascending. -/
def projRel (a b : String × Nat) : Prop :=
  b.2 < a.2 ∨ (a.2 = b.2 ∧ strLe a.1 b.1)

instance : IsAntisymm (String × Nat) projRel := by
  constructor
  intro a b h1 h2
  rcases h1 with h1 | ⟨he1, hl1⟩
  · rcases h2 with h2 | ⟨he2, _⟩
    · omega
    · omega
  · rcases h2 with h2 | ⟨_, hl2⟩
    · omega
    · exact Prod.ext (strLe_antisymm hl1 hl2) he1

/-- The weight `get_verse_words` finally records for a lemma: 3 when some row
carries that lemma with a content-bearing part of speech, else 1. -/
def wmax (rows : List (String × Option String)) (l : String) : Nat :=
  if rows.any (fun r => r.1 = l && posWeight r.2 = 3) then 3 else 1

/-- A `words` row with only location, word, lemma and corpus set. -/
def exTok (b : String) (ch v p : Nat) (w l corp : String) : QueryParser.Token :=
  ⟨b, ch, v, p, w, l, none, none, none, none, none, none, none, none, none, corp⟩

/-- A bare-lemma search term. -/
def lemTerm (l : String) : QueryParser.SearchTerm := ⟨some l, none, []⟩

/-- Store with the same verse coordinates in two different corpora. -/
def exDb3 : List QueryParser.Token :=
  [exTok "01" 1 1 1 "wa" "a" "NT", exTok "01" 1 1 2 "wb" "b" "LXX"]

/-- Two-term adjacency query `a & b` (no proximity suffix). -/
def exQ3 : QueryParser.Query := ⟨[lemTerm "a", lemTerm "b"], none, false, []⟩

/-- Store with lemma `x` at positions 1 and 2 and lemma `y` at position 3 of
one verse. -/
def exDb4 : List QueryParser.Token :=
  [exTok "01" 1 1 1 "w1" "x" "NT", exTok "01" 1 1 2 "w2" "x" "NT",
   exTok "01" 1 1 3 "w3" "y" "NT"]

/-- Query `x & y W2`. -/
def exQ4 : QueryParser.Query := ⟨[lemTerm "x", lemTerm "y"], some 2, false, []⟩

/-- Query `x & y` (implicit window). -/
def exQ2 : QueryParser.Query := ⟨[lemTerm "x", lemTerm "y"], none, false, []⟩

/-- Query `x & y W0`. -/
def exQ0 : QueryParser.Query := ⟨[lemTerm "x", lemTerm "y"], some 0, false, []⟩

/-- Single-term query for lemma `x`. -/
def exQ1 : QueryParser.Query := ⟨[lemTerm "x"], none, false, []⟩

/-- Store for the relative search: a source verse (01 1:1) and two candidate
verses sharing lemmas with it. -/
def exDbRel : List QueryParser.Token :=
  [exTok "01" 1 1 1 "wA" "a" "NT",
   { exTok "01" 1 2 1 "wA" "a" "NT" with pos := some "noun" },
   { exTok "01" 1 2 2 "wA2" "a" "NT" with pos := some "verb" },
   exTok "01" 1 2 3 "wB" "b" "NT",
   exTok "02" 2 2 1 "wB" "b" "NT"]

/-- Target lemmas for the relative-search example. -/
def exLemmas : List (String × Nat) := [("a", 3), ("b", 1)]

end GreekBible

namespace GreekBible

open GreekBible.LxxImporter GreekBible.SetupDatabase
open GreekBible.QueryParser GreekBible.RelativeSearch

/-!
## Claims
-/

/-- C1: the claim states that both decoders are total and never throw, for
every input string including the empty string.  The Scheme-B decoder
(`parse_morphology`) is indeed total (it is a plain function in this
embedding and returns the empty record on the empty string), but the
Scheme-A decoder (`parse_packard_morph`) reaches the unguarded
`morph_code[0]` of the simple-POS fallback on the empty string and raises an
`IndexError`, contradicting the code's own never-throw fallback design
("If we can't parse it, return what we have").  This theorem evaluates both
decoders at the failing input. -/
theorem parse_packard_morph_raises_on_empty :
    parse_packard_morph ("") =
      Except.error ("IndexError: string index out of range") ∧
    parse_morphology ("") = [] := by
  exact ⟨rfl, rfl⟩

/-- C5: parsing `*λόγος@Nsg` yields exactly one term with lemma `λόγος` and
morphology pos=noun, case=genitive, number=singular (in that dict-insertion
order: `N` is consumed by the POS pre-step, then the fixed category order
lets case claim `g` and number claim `s`), with the whole-corpus wildcard set
and no book restriction and no proximity window. -/
theorem parse_query_wildcard_logos_Nsg :
    parse_queryE ("*λόγος@Nsg") =
      Except.ok
        { terms := [{ lemma_ := some ("λόγος"), special_token := none,
                      morphology := [("pos", "noun"), ("case", "genitive"),
                                     ("number", "singular")] }],
          proximity := none, whole_nt := true, book_codes := [] } := by
  rfl

/-- Helper: a successful continuation lookup returns a token of the anchor's
verse, inside the window, matching the term. -/
theorem findNextTok_spec {db : List Token} {t : SearchTerm} {b : String}
    {ch v lastPos window : Nat} {tok : Token}
    (h : findNextTok db t b ch v lastPos window = some tok) :
    tok.book_code = b ∧ tok.chapter = ch ∧ tok.verse = v ∧
    lastPos < tok.word_position ∧ tok.word_position ≤ lastPos + window ∧
    termPred t tok = true := by
  unfold findNextTok at h
  have hmem := List.mem_of_mem_head? (Option.mem_def.mpr h)
  rw [List.mem_insertionSort, List.mem_filter] at hmem
  have hp := hmem.2
  simp only [Bool.and_eq_true, decide_eq_true_eq] at hp
  exact ⟨hp.1.1.1.1.1, hp.1.1.1.1.2, hp.1.1.1.2, hp.1.1.2, hp.1.2, hp.2⟩

/-- C2: with two terms and no explicit proximity suffix the window defaults
to 1, so an accepted match is exactly an anchor token plus one continuation
token at position anchor+1 of the same verse — strict forward adjacency,
never a position before the anchor or more than one after it. -/
theorem implicit_window_strict_adjacency
    (db : List Token) (q : Query) (corpora : List String) (span : List Token)
    (hp : q.proximity = none) (h2 : q.terms.length = 2)
    (hs : span ∈ proxSpans db q corpora) :
    ∃ t0 t1, span = [t0, t1] ∧
      t1.word_position = t0.word_position + 1 ∧
      t1.book_code = t0.book_code ∧ t1.chapter = t0.chapter ∧
      t1.verse = t0.verse := by
  obtain ⟨ta, tb, hterms⟩ := List.length_eq_two.mp h2
  unfold proxSpans at hs
  rw [hterms] at hs
  simp only [List.mem_filterMap] at hs
  obtain ⟨anchor, _, hm⟩ := hs
  unfold matchSpan at hm
  rw [hp] at hm
  simp only [List.tail_cons] at hm
  cases hf : findNextTok db tb anchor.book_code anchor.chapter anchor.verse
      anchor.word_position (maxDistance none) with
  | none =>
    simp only [continueSpan, hf] at hm
    exact absurd hm (by simp)
  | some tok =>
    simp only [continueSpan, hf, Option.some.injEq] at hm
    obtain ⟨hb, hch, hv, hlt, hle, _⟩ := findNextTok_spec hf
    refine ⟨anchor, tok, hm.symm, ?_, hb, hch, hv⟩
    simp only [maxDistance] at hle
    omega

/-- Witness for C2 at a concrete store: query `x & y` on a verse with `x` at
positions 1 and 2 and `y` at position 3 accepts exactly the span (2, 3). -/
theorem implicit_window_strict_adjacency_witness :
    ∃ t0 t1,
      [exTok ("01") 1 1 2 ("w2") ("x") ("NT"),
       exTok ("01") 1 1 3 ("w3") ("y") ("NT")] = [t0, t1] ∧
      t1.word_position = t0.word_position + 1 ∧
      t1.book_code = t0.book_code ∧ t1.chapter = t0.chapter ∧
      t1.verse = t0.verse :=
  implicit_window_strict_adjacency exDb4 exQ2 ["NT"]
    [exTok ("01") 1 1 2 ("w2") ("x") ("NT"),
     exTok ("01") 1 1 3 ("w3") ("y") ("NT")] rfl rfl (by decide)

/-- Helper: every token found by the continuation loop lies in the anchor's
verse coordinates. -/
theorem continueSpan_spec {db : List Token} {b : String} {ch v window : Nat} :
    ∀ {terms : List SearchTerm} {lastPos : Nat} {toks : List Token},
      continueSpan db b ch v window terms lastPos = some toks →
      ∀ tok ∈ toks, tok.book_code = b ∧ tok.chapter = ch ∧ tok.verse = v := by
  intro terms
  induction terms with
  | nil =>
    intro lastPos toks h tok htok
    simp only [continueSpan, Option.some.injEq] at h
    subst h
    simp at htok
  | cons t rest ih =>
    intro lastPos toks h tok htok
    cases hf : findNextTok db t b ch v lastPos window with
    | none =>
      simp only [continueSpan, hf] at h
      exact absurd h (by simp)
    | some found =>
      cases hc : continueSpan db b ch v window rest found.word_position with
      | none =>
        simp only [continueSpan, hf, hc] at h
        exact absurd h (by simp)
      | some toks' =>
        simp only [continueSpan, hf, hc, Option.some.injEq] at h
        subst h
        rcases List.mem_cons.mp htok with heq | hmem
        · subst heq
          obtain ⟨hb, hch, hv, _⟩ := findNextTok_spec hf
          exact ⟨hb, hch, hv⟩
        · exact ih hc tok hmem

/-- C3 (amended): all tokens of one accepted proximity match share the
anchor's (book_code, chapter, verse) — a match never crosses a verse
boundary.  (The corpus component of the original claim fails; see the
counterexample.) -/
theorem prox_match_within_one_verse
    (db : List Token) (q : Query) (corpora : List String) (span : List Token)
    (t u : Token) (hs : span ∈ proxSpans db q corpora)
    (ht : t ∈ span) (hu : u ∈ span) :
    t.book_code = u.book_code ∧ t.chapter = u.chapter ∧ t.verse = u.verse := by
  unfold proxSpans at hs
  cases hterms : q.terms with
  | nil => rw [hterms] at hs; simp at hs
  | cons t0 rest =>
    rw [hterms] at hs
    simp only [List.mem_filterMap] at hs
    obtain ⟨anchor, _, hm⟩ := hs
    unfold matchSpan at hm
    cases hc : continueSpan db anchor.book_code anchor.chapter anchor.verse
        (maxDistance q.proximity) (t0 :: rest).tail anchor.word_position with
    | none => rw [hc] at hm; simp at hm
    | some toks =>
      rw [hc] at hm
      simp only [Option.some.injEq] at hm
      subst hm
      have coords : ∀ x ∈ anchor :: toks,
          x.book_code = anchor.book_code ∧ x.chapter = anchor.chapter ∧
          x.verse = anchor.verse := by
        intro x hx
        rcases List.mem_cons.mp hx with heq | hmem
        · subst heq; exact ⟨rfl, rfl, rfl⟩
        · exact continueSpan_spec hc x hmem
      obtain ⟨hb1, hc1, hv1⟩ := coords t ht
      obtain ⟨hb2, hc2, hv2⟩ := coords u hu
      exact ⟨hb1.trans hb2.symm, hc1.trans hc2.symm, hv1.trans hv2.symm⟩

/-- Witness for the amended C3 at a concrete store. -/
theorem prox_match_within_one_verse_witness :
    (exTok ("01") 1 1 1 ("wa") ("a") ("NT")).book_code =
      (exTok ("01") 1 1 2 ("wb") ("b") ("LXX")).book_code ∧
    (exTok ("01") 1 1 1 ("wa") ("a") ("NT")).chapter =
      (exTok ("01") 1 1 2 ("wb") ("b") ("LXX")).chapter ∧
    (exTok ("01") 1 1 1 ("wa") ("a") ("NT")).verse =
      (exTok ("01") 1 1 2 ("wb") ("b") ("LXX")).verse :=
  prox_match_within_one_verse exDb3 exQ3 ["NT"]
    [exTok ("01") 1 1 1 ("wa") ("a") ("NT"),
     exTok ("01") 1 1 2 ("wb") ("b") ("LXX")]
    (exTok ("01") 1 1 1 ("wa") ("a") ("NT"))
    (exTok ("01") 1 1 2 ("wb") ("b") ("LXX"))
    (by decide) (by decide) (by decide)

/-- Counterexample to C3 as stated: the continuation lookup of
`execute_proximity_search` filters only on (book_code, chapter, verse), not
on corpus, so on a store where two corpora share verse coordinates an
accepted match mixes tokens of different corpora (here: anchor in `NT`,
continuation token in `LXX`, with the query restricted to `NT`). -/
theorem prox_match_mixes_corpora :
    ∃ span ∈ proxSpans exDb3 exQ3 ["NT"],
      ∃ t ∈ span, ∃ u ∈ span, t.corpus ≠ u.corpus := by
  decide

/-- C10: `W0` parses to a recorded window of 0, and because the executor
reads the window with Python truthiness (`query.proximity if query.proximity
else 1`), a zero window executes exactly like the implicit default 1: the
result list is identical to the one for the same query without a suffix. -/
theorem w0_window_equals_default :
    (∃ q, parse_queryE ("a & b W0") = Except.ok q ∧
      q.proximity = some 0 ∧ q.terms.length = 2) ∧
    ∀ (db : List Token) (q : Query) (corpora : List String),
      q.proximity = some 0 →
      execute_proximity_search db q corpora =
        execute_proximity_search db { q with proximity := none } corpora := by
  constructor
  · exact ⟨_, rfl, rfl, rfl⟩
  · intro db q corpora hp
    cases q with
    | mk terms prox wn books =>
      simp only at hp
      subst hp
      rfl

/-- Witness for C10 at a concrete store. -/
theorem w0_window_equals_default_witness :
    execute_proximity_search exDb4 exQ0 ["NT"] =
      execute_proximity_search exDb4 { exQ0 with proximity := none } ["NT"] :=
  w0_window_equals_default.2 exDb4 exQ0 ["NT"] rfl

/-- Counterexample to C4 as stated: multi-term results are emitted per
anchor (each matched span in term order), not globally sorted.  With lemma
`x` at positions 1 and 2, `y` at position 3 and window 2, the matched token
sequence visits positions 1, 3, 2, 3 — not ordered by (book_code, chapter,
verse, position), and containing a duplicate token. -/
theorem prox_results_not_position_sorted :
    ¬ List.Pairwise tokLe (proxTokens exDb4 exQ4 ["NT"]) := by
  decide

/-- C4 (amended): `execute_query` always returns at most 500 records (both
branches cap at 500), and in the single-term case the underlying token list
is sorted by (book_code, chapter, verse, word_position); the multi-term
output is ordered by anchor with each match's tokens contiguous in term
order instead (see the counterexample). -/
theorem execute_query_cap_and_single_term_order
    (db : List Token) (q : Query) (corpora : List String) :
    (execute_query db q corpora).length ≤ 500 ∧
    (∀ term, q.terms = [term] →
      List.Pairwise tokLe (singleTermTokens db term q.book_codes corpora)) := by
  constructor
  · unfold execute_query
    cases hterms : q.terms with
    | nil => simp
    | cons t rest =>
      cases rest with
      | nil =>
        simp only [List.length_map]
        unfold singleTermTokens
        exact List.length_take_le 500 _
      | cons t2 rest2 =>
        unfold execute_proximity_search
        exact List.length_take_le 500 _
  · intro term _
    unfold singleTermTokens tokenSort
    exact List.Pairwise.sublist (List.take_sublist 500 _)
      (List.sorted_insertionSort tokLe _)

/-- Witness for the amended C4 at a concrete store. -/
theorem execute_query_cap_and_single_term_order_witness :
    (execute_query exDb4 exQ1 ["NT"]).length ≤ 500 ∧
    List.Pairwise tokLe
      (singleTermTokens exDb4 (lemTerm ("x")) exQ1.book_codes ["NT"]) :=
  ⟨(execute_query_cap_and_single_term_order exDb4 exQ1 ["NT"]).1,
   (execute_query_cap_and_single_term_order exDb4 exQ1 ["NT"]).2
     (lemTerm ("x")) rfl⟩


/-- Helper: the POS pre-step never fails — the one string index is guarded
by the nonemptiness test. -/
theorem posPreStep_ok (codes : List Char) :
    ∃ r, posPreStep codes = Except.ok r := by
  cases codes with
  | nil => exact ⟨_, rfl⟩
  | cons c cs =>
    have h1 : posPreStep (c :: cs) =
        (if c.isUpper then
          match ((MORPH_CODE_ORDER.lookup ("pos")).getD []).lookup c with
          | some v => Except.ok ([(("pos" : String), v)], [c])
          | none => Except.ok ([], [])
         else Except.ok ([], [])) := rfl
    rw [h1]
    by_cases hc : c.isUpper
    · rw [if_pos hc]
      cases ((MORPH_CODE_ORDER.lookup ("pos")).getD []).lookup c with
      | some v => exact ⟨_, rfl⟩
      | none => exact ⟨_, rfl⟩
    · rw [if_neg hc]
      exact ⟨_, rfl⟩

/-- Helper: the morphology micro-code decoder never fails. -/
theorem parseMorphCodes_ok (codes : List Char) :
    ∃ m, parseMorphCodes codes = Except.ok m := by
  obtain ⟨r, hr⟩ := posPreStep_ok codes
  unfold parseMorphCodes
  rw [hr]
  exact ⟨_, rfl⟩

/-- Helper: one term-loop iteration never fails. -/
theorem parseTermStep_ok (acc : List SearchTerm) (ts : List Char) :
    ∃ r, parseTermStep acc ts = Except.ok r := by
  unfold parseTermStep
  by_cases he : ts.isEmpty
  · rw [if_pos he]
    exact ⟨_, rfl⟩
  · rw [if_neg he]
    cases hsm : specialMatch ts with
    | some wc =>
      cases wc with
      | mk w codes =>
        dsimp only
        obtain ⟨m, hm⟩ := parseMorphCodes_ok codes
        rw [hm]
        exact ⟨_, rfl⟩
    | none =>
      by_cases hat : ts.contains '@'
      · rw [if_pos hat]
        dsimp only
        obtain ⟨m, hm⟩ := parseMorphCodes_ok
          (pyStrip ((ts.dropWhile (fun x => decide (x ≠ '@'))).drop 1))
        rw [hm]
        exact ⟨_, rfl⟩
      · rw [if_neg hat]
        obtain ⟨m, hm⟩ := parseMorphCodes_ok []
        rw [hm]
        exact ⟨_, rfl⟩

/-- Helper: the whole term loop never fails. -/
theorem foldlM_parseTermStep_ok (l : List (List Char)) :
    ∀ acc, ∃ r, List.foldlM parseTermStep acc l = Except.ok r := by
  induction l with
  | nil => exact fun acc => ⟨acc, rfl⟩
  | cons ts rest ih =>
    intro acc
    obtain ⟨a, ha⟩ := parseTermStep_ok acc ts
    obtain ⟨r, hr⟩ := ih a
    refine ⟨r, ?_⟩
    rw [List.foldlM_cons, ha]
    exact hr

/-- C9: `parse_query` is total over all input strings — for every string
(grammatical or not, including the empty string) it returns a `Query`
without raising; a fragment matched by no grammar rule falls through to the
bare-lemma branch of `parseTermStep`, so no input is rejected. -/
theorem parse_query_total (s : String) :
    ∃ q, parse_queryE s = Except.ok q := by
  unfold parse_queryE
  rcases hpre : preParse (pyStrip s.data) with ⟨bookCodes, s1, wholeNt⟩
  dsimp only
  rcases hps : proxStep s1 with ⟨prox, s2⟩
  dsimp only
  obtain ⟨terms, ht⟩ :=
    foldlM_parseTermStep_ok ((pySplit '&' s2).map pyStrip) []
  rw [ht]
  exact ⟨_, rfl⟩

/-- Helper: stripping is the identity on a string that starts and ends with
a non-whitespace character. -/
theorem pyStrip_nospace_ends (c : Char) (m : List Char) (d : Char)
    (hc : pyIsSpace c = false) (hd : pyIsSpace d = false) :
    pyStrip (c :: (m ++ [d])) = c :: (m ++ [d]) := by
  unfold pyStrip
  rw [List.dropWhile_cons_of_neg (by simp [hc])]
  rw [show (c :: (m ++ [d])).reverse = d :: (m.reverse ++ [c]) by simp]
  rw [List.dropWhile_cons_of_neg (by simp [hd])]
  simp

/-- Helper: the book-restriction regex on `[<book-list>] + x` captures the
bracket content and the rest exactly. -/
theorem bookMatch_bracket (bl : List Char) (h1 : bl ≠ []) (h2 : ']' ∉ bl) :
    bookMatch ('[' :: (bl ++ (']' :: ' ' :: '+' :: ' ' :: 'x' :: []))) =
      some (bl, ['x']) := by
  have hall : ∀ a ∈ bl, (decide (a ≠ ']')) = true := by
    intro a ha
    simp only [decide_eq_true_eq]
    intro h
    exact h2 (h ▸ ha)
  show (if ('[' : Char) = '[' then
      let content := (bl ++ (']' :: ' ' :: '+' :: ' ' :: 'x' :: [])).takeWhile (· ≠ ']')
      if content.isEmpty then none
      else
        match (bl ++ (']' :: ' ' :: '+' :: ' ' :: 'x' :: [])).dropWhile (· ≠ ']') with
        | _ :: rest2 =>
          match rest2.dropWhile pyIsSpace with
          | c3 :: rest4 =>
            if c3 = '+' then
              let g2 := (rest4.dropWhile pyIsSpace).takeWhile (· ≠ '\n')
              if g2.isEmpty then none else some (content, g2)
            else none
          | [] => none
        | [] => none
    else none) = some (bl, ['x'])
  rw [if_pos rfl]
  rw [List.takeWhile_append_of_pos hall, List.dropWhile_append_of_pos hall]
  rw [List.takeWhile_cons_of_neg (by simp), List.dropWhile_cons_of_neg (by simp)]
  rw [List.append_nil]
  rw [if_neg (by simp [h1])]
  rfl

/-- Helper: the book-restriction stage maps each comma-separated, stripped
abbreviation through an exact lookup in `BOOK_ABBREVIATIONS`, dropping the
unknown ones (`filterMap`). -/
theorem preParse_bracket (bl : List Char) (h1 : bl ≠ []) (h2 : ']' ∉ bl) :
    preParse ('[' :: (bl ++ (']' :: ' ' :: '+' :: ' ' :: 'x' :: []))) =
      (((pySplit ',' bl).map pyStrip).filterMap
         (fun a => BOOK_ABBREVIATIONS.lookup (String.mk a)), ['x'], false) := by
  unfold preParse
  rw [bookMatch_bracket bl h1 h2]
  rfl

/-- Helper: `[<book-list>] + x` is already stripped. -/
theorem pyStrip_bracket (bl : List Char) :
    pyStrip ('[' :: (bl ++ (']' :: ' ' :: '+' :: ' ' :: 'x' :: []))) =
      '[' :: (bl ++ (']' :: ' ' :: '+' :: ' ' :: 'x' :: [])) := by
  simpa using pyStrip_nospace_ends '[' (bl ++ [']', ' ', '+', ' ']) 'x' rfl rfl

/-- C8 (amended): for every book-list prefix (nonempty, no `]`), each
comma-separated abbreviation is stripped and looked up by exact,
case-sensitive string match in the fixed table (whose keys include specific
period-suffixed variants such as `Matt.`); any abbreviation not literally in
the table is silently dropped while the rest of the query still parses.
The case/period-insensitivity asserted by the original claim does not hold
(see the counterexample). -/
theorem book_restriction_exact_lookup (bl : List Char)
    (h1 : bl ≠ []) (h2 : ']' ∉ bl) :
    parse_queryE (String.mk ('[' :: (bl ++ (']' :: ' ' :: '+' :: ' ' :: 'x' :: [])))) =
      Except.ok
        { terms := [⟨some ("x"), none, []⟩], proximity := none,
          whole_nt := false,
          book_codes := ((pySplit ',' bl).map pyStrip).filterMap
            (fun a => BOOK_ABBREVIATIONS.lookup (String.mk a)) } := by
  unfold parse_queryE
  rw [show (String.mk ('[' :: (bl ++ (']' :: ' ' :: '+' :: ' ' :: 'x' :: [])))).data
      = '[' :: (bl ++ (']' :: ' ' :: '+' :: ' ' :: 'x' :: [])) from rfl]
  rw [pyStrip_bracket bl]
  rw [preParse_bracket bl h1 h2]
  rfl

/-- Witness for the amended C8: `[matt,Mark] + x` keeps only `Mark`
(code 02) — `matt` is not a key of the table. -/
theorem book_restriction_exact_lookup_witness :
    parse_queryE (String.mk ('[' ::
        (("matt,Mark").data ++ (']' :: ' ' :: '+' :: ' ' :: 'x' :: [])))) =
      Except.ok
        { terms := [⟨some ("x"), none, []⟩], proximity := none,
          whole_nt := false,
          book_codes := ((pySplit ',' ("matt,Mark").data).map pyStrip).filterMap
            (fun a => BOOK_ABBREVIATIONS.lookup (String.mk a)) } :=
  book_restriction_exact_lookup (("matt,Mark").data) (by decide) (by decide)

/-- Counterexample to C8 as stated: the claim says `matt`, `MATT` and
`Matt.` all map to Matthew's code case-insensitively, but the code looks the
abbreviation up verbatim: `[matt] + a` and `[MATT] + a` produce an empty
book restriction (silently dropped), while `[Matt] + a` produces `["01"]`.
Parsing of the rest continues in all three cases. -/
theorem book_abbreviation_lookup_case_sensitive :
    (parse_queryE ("[matt] + a") =
      Except.ok { terms := [⟨some ("a"), none, []⟩], proximity := none,
                  whole_nt := false, book_codes := [] }) ∧
    (parse_queryE ("[MATT] + a") =
      Except.ok { terms := [⟨some ("a"), none, []⟩], proximity := none,
                  whole_nt := false, book_codes := [] }) ∧
    (parse_queryE ("[Matt] + a") =
      Except.ok { terms := [⟨some ("a"), none, []⟩], proximity := none,
                  whole_nt := false, book_codes := ["01"] }) :=
  ⟨rfl, rfl, rfl⟩

/-- Helper: membership in the first-occurrence dedup fold used by the
`GROUP BY` embedding. -/
theorem dedup_fold_mem (l : List (String × Nat × Nat × String)) :
    ∀ (acc : List (String × Nat × Nat × String)) (x : String × Nat × Nat × String),
      (x ∈ l.foldl (fun acc k => if k ∈ acc then acc else acc ++ [k]) acc ↔
        x ∈ acc ∨ x ∈ l) := by
  induction l with
  | nil => intro acc x; simp
  | cons k l ih =>
    intro acc x
    rw [List.foldl_cons]
    by_cases hk : k ∈ acc
    · rw [if_pos hk, ih]
      constructor
      · rintro (h | h)
        · exact Or.inl h
        · exact Or.inr (List.mem_cons_of_mem k h)
      · rintro (h | h)
        · exact Or.inl h
        · rcases List.mem_cons.mp h with rfl | h
          · exact Or.inl hk
          · exact Or.inr h
    · rw [if_neg hk, ih]
      simp only [List.mem_append, List.mem_singleton, List.mem_cons]
      tauto

/-- Helper: the verse-scan fold keeps the matched-lemma set duplicate-free. -/
theorem scan_fold_nodup (lemmaList : List String)
    (ws : List (String × String)) :
    ∀ acc : List String × List String, acc.2.Nodup →
      ((ws.foldl (scanStep lemmaList) acc).2).Nodup := by
  induction ws with
  | nil => intro acc h; exact h
  | cons wl ws ih =>
    intro acc h
    rw [List.foldl_cons]
    apply ih
    unfold scanStep
    by_cases h1 : wl.2 ∈ lemmaList
    · rw [if_pos h1]
      by_cases h2 : wl.2 ∈ acc.2
      · rw [if_pos h2]; exact h
      · simp only [if_neg h2]
        exact List.Nodup.append h (List.nodup_singleton _)
          (by simp [List.disjoint_singleton, h2])
    · rw [if_neg h1]; exact h

/-- Helper: a lemma enters the matched set exactly when it is a target lemma
carried by some scanned word. -/
theorem scan_fold_mem (lemmaList : List String)
    (ws : List (String × String)) :
    ∀ (acc : List String × List String) (l : String),
      (l ∈ (ws.foldl (scanStep lemmaList) acc).2 ↔
        l ∈ acc.2 ∨ (l ∈ lemmaList ∧ ∃ p ∈ ws, p.2 = l)) := by
  induction ws with
  | nil => intro acc l; simp
  | cons wl ws ih =>
    intro acc l
    rw [List.foldl_cons, ih]
    unfold scanStep
    by_cases h1 : wl.2 ∈ lemmaList
    · rw [if_pos h1]
      by_cases h2 : wl.2 ∈ acc.2
      · rw [if_pos h2]
        constructor
        · rintro (h | h)
          · exact Or.inl h
          · exact Or.inr ⟨h.1, h.2.imp (fun p hp => ⟨List.mem_cons_of_mem _ hp.1, hp.2⟩)⟩
        · rintro (h | ⟨hl, p, hp, hpl⟩)
          · exact Or.inl h
          · rcases List.mem_cons.mp hp with rfl | hp'
            · exact Or.inl (hpl ▸ h2)
            · exact Or.inr ⟨hl, p, hp', hpl⟩
      · simp only [if_neg h2, List.mem_append, List.mem_singleton]
        constructor
        · rintro ((h | h) | h)
          · exact Or.inl h
          · exact Or.inr ⟨h ▸ h1, wl, List.mem_cons_self _ _, h.symm⟩
          · exact Or.inr ⟨h.1, h.2.imp (fun p hp => ⟨List.mem_cons_of_mem _ hp.1, hp.2⟩)⟩
        · rintro (h | ⟨hl, p, hp, hpl⟩)
          · exact Or.inl (Or.inl h)
          · rcases List.mem_cons.mp hp with rfl | hp'
            · exact Or.inl (Or.inr hpl.symm)
            · exact Or.inr ⟨hl, p, hp', hpl⟩
    · rw [if_neg h1]
      constructor
      · rintro (h | h)
        · exact Or.inl h
        · exact Or.inr ⟨h.1, h.2.imp (fun p hp => ⟨List.mem_cons_of_mem _ hp.1, hp.2⟩)⟩
      · rintro (h | ⟨hl, p, hp, hpl⟩)
        · exact Or.inl h
        · rcases List.mem_cons.mp hp with rfl | hp'
          · exact absurd (hpl ▸ hl) h1
          · exact Or.inr ⟨hl, p, hp', hpl⟩

/-- Helper: matched lemmas of one candidate verse are pairwise distinct. -/
theorem scanVerse_matched_nodup (db : List Token) (lemmaList : List String)
    (k : String × Nat × Nat × String) :
    ((scanVerse db lemmaList k).2).Nodup := by
  unfold scanVerse
  exact scan_fold_nodup lemmaList _ ([], []) (List.nodup_nil)

/-- Helper: the matched lemmas of a candidate verse are exactly the target
lemmas carried by some token of that verse and corpus. -/
theorem scanVerse_matched_mem (db : List Token) (lemmaList : List String)
    (k : String × Nat × Nat × String) (l : String) :
    l ∈ (scanVerse db lemmaList k).2 ↔
      (l ∈ lemmaList ∧ ∃ t ∈ db, t.book_code = k.1 ∧ t.chapter = k.2.1 ∧
        t.verse = k.2.2.1 ∧ t.corpus = k.2.2.2 ∧ t.lemma_ = l) := by
  unfold scanVerse
  rw [scan_fold_mem]
  simp only [List.not_mem_nil, false_or]
  constructor
  · rintro ⟨hl, p, hp, hpl⟩
    rw [List.mem_map] at hp
    obtain ⟨t, ht, rfl⟩ := hp
    rw [List.mem_insertionSort, List.mem_filter] at ht
    have := ht.2
    simp only [Bool.and_eq_true, decide_eq_true_eq] at this
    exact ⟨hl, t, ht.1, this.1.1.1, this.1.1.2, this.1.2, this.2, hpl⟩
  · rintro ⟨hl, t, ht, h1, h2, h3, h4, h5⟩
    refine ⟨hl, (t.word, t.lemma_), ?_, h5⟩
    rw [List.mem_map]
    refine ⟨t, ?_, rfl⟩
    rw [List.mem_insertionSort, List.mem_filter]
    exact ⟨ht, by simp [h1, h2, h3, h4]⟩

/-- Helper: every candidate key comes from a token row passing the
source-verse exclusion. -/
theorem candidateKeys_mem {db : List Token} {lemmaList : List String}
    {srcB : String} {srcCh srcV : Nat} {corpora : List String}
    {k : String × Nat × Nat × String}
    (hk : k ∈ candidateKeys db lemmaList srcB srcCh srcV corpora) :
    ¬(k.1 = srcB ∧ k.2.1 = srcCh ∧ k.2.2.1 = srcV) := by
  unfold candidateKeys at hk
  rw [List.mem_insertionSort, dedup_fold_mem] at hk
  rcases hk with h | h
  · simp at h
  · rw [List.mem_map] at h
    obtain ⟨t, ht, rfl⟩ := h
    rw [List.mem_filter] at ht
    have := ht.2
    simp only [Bool.and_eq_true, Bool.not_eq_true', decide_eq_true_eq,
      Bool.and_eq_false_iff, decide_eq_false_iff_not] at this
    rintro ⟨h1, h2, h3⟩
    revert this
    simp only [Bool.and_eq_true, decide_eq_true_eq, Bool.not_eq_true',
      Bool.and_eq_false_iff, decide_eq_false_iff_not, and_imp]
    exact fun _ _ h => (by tauto : False)

/-- C6: every `search_by_lemmas` result excludes the source verse, its
matched lemmas are pairwise distinct (a lemma occurring several times in the
verse is counted once) and are exactly the nonempty input lemmas present in
the result's verse, its score is the sum of the input weights of those
distinct matched lemmas, its match_count is their number, and the output is
sorted descending by (score, match_count). -/
theorem search_by_lemmas_spec
    (db : List Token) (books : List Book) (lemmas : List (String × Nat))
    (srcB : String) (srcCh srcV : Nat) (corpora : List String) :
    (∀ r ∈ search_by_lemmas db books lemmas srcB srcCh srcV corpora,
       (¬(r.book_code = srcB ∧ r.chapter = srcCh ∧ r.verse = srcV) ∧
        r.matched_lemmas.Nodup ∧
        r.score = (r.matched_lemmas.map (lemmaWeight lemmas)).sum ∧
        r.match_count = r.matched_lemmas.length) ∧
       (∀ l, l ∈ r.matched_lemmas ↔
         (l ∈ (lemmas.map (·.1)).filter (· ≠ "") ∧
          ∃ t ∈ db, t.book_code = r.book_code ∧ t.chapter = r.chapter ∧
            t.verse = r.verse ∧ t.corpus = r.corpus ∧ t.lemma_ = l))) ∧
    List.Pairwise rvRel
      (search_by_lemmas db books lemmas srcB srcCh srcV corpora) := by
  unfold search_by_lemmas
  by_cases h0 : lemmas.isEmpty
  · rw [if_pos h0]
    exact ⟨by simp, List.Pairwise.nil⟩
  · rw [if_neg h0]
    dsimp only
    by_cases h1 : ((lemmas.map (·.1)).filter (· ≠ "")).isEmpty
    · rw [if_pos h1]
      exact ⟨by simp, List.Pairwise.nil⟩
    · rw [if_neg h1]
      constructor
      · intro r hr
        rw [List.mem_insertionSort, List.mem_map] at hr
        obtain ⟨k, hk, rfl⟩ := hr
        constructor
        · refine ⟨candidateKeys_mem hk, ?_, rfl, rfl⟩
          exact scanVerse_matched_nodup db _ k
        · intro l
          exact scanVerse_matched_mem db _ k l
      · exact List.sorted_insertionSort rvRel _

/-- Witness for C6 at a concrete store: the candidate verse 01 1:2 matches
lemmas `a` (weight 3, present twice but counted once) and `b` (weight 1),
scoring 4 with match_count 2, and is not the source verse 01 1:1. -/
theorem search_by_lemmas_spec_witness :
    ¬(({ book_code := ("01"), book_name := ("Book 01"), chapter := 1,
         verse := 2, corpus := ("NT"),
         verse_text := ("<strong>wA</strong> <strong>wA2</strong> <strong>wB</strong>"),
         matched_lemmas := ["a", "b"], score := 4,
         match_count := 2 } : RankedVerse).book_code = ("01") ∧
      (1 : Nat) = 1 ∧ (2 : Nat) = 1) ∧
    (["a", "b"] : List String).Nodup ∧
    (4 : Nat) = ((["a", "b"] : List String).map (lemmaWeight exLemmas)).sum ∧
    (2 : Nat) = (["a", "b"] : List String).length := by
  have h := ((search_by_lemmas_spec exDbRel [] exLemmas ("01") 1 1 ["NT"]).1
    { book_code := ("01"), book_name := ("Book 01"), chapter := 1,
      verse := 2, corpus := ("NT"),
      verse_text := ("<strong>wA</strong> <strong>wA2</strong> <strong>wB</strong>"),
      matched_lemmas := ["a", "b"], score := 4, match_count := 2 }
    (by decide)).1
  exact h

/-- Helper: the weight table — 3 for the content-bearing parts of speech,
1 for everything else (including an absent part of speech). -/
theorem posWeight_table (p : Option String) :
    posWeight p =
      (if p = some ("verb") ∨ p = some ("noun") ∨ p = some ("adjective") ∨
          p = some ("adverb") then 3 else 1) := by
  cases p with
  | none => simp [posWeight]
  | some x =>
    unfold posWeight POS_WEIGHTS
    by_cases h1 : x = "verb"
    · subst h1; rfl
    · by_cases h2 : x = "noun"
      · subst h2; rfl
      · by_cases h3 : x = "adjective"
        · subst h3; rfl
        · by_cases h4 : x = "adverb"
          · subst h4; rfl
          · by_cases h5 : x = "pronoun"
            · subst h5; rfl
            · by_cases h6 : x = "article"
              · subst h6; rfl
              · by_cases h7 : x = "preposition"
                · subst h7; rfl
                · by_cases h8 : x = "particle"
                  · subst h8; rfl
                  · by_cases h9 : x = "conjunction"
                    · subst h9; rfl
                    · by_cases h10 : x = "interjection"
                      · subst h10; rfl
                      · rw [if_neg (by simp [h1, h2, h3, h4])]
                        simp only [List.lookup,
                          show (x == "verb") = false by simp [h1],
                          show (x == "noun") = false by simp [h2],
                          show (x == "adjective") = false by simp [h3],
                          show (x == "adverb") = false by simp [h4],
                          show (x == "pronoun") = false by simp [h5],
                          show (x == "article") = false by simp [h6],
                          show (x == "preposition") = false by simp [h7],
                          show (x == "particle") = false by simp [h8],
                          show (x == "conjunction") = false by simp [h9],
                          show (x == "interjection") = false by simp [h10]]
                        rfl

/-- Helper: weights are always 1 or 3. -/
theorem posWeight_cases (p : Option String) :
    posWeight p = 1 ∨ posWeight p = 3 := by
  rw [posWeight_table]
  by_cases h : p = some ("verb") ∨ p = some ("noun") ∨ p = some ("adjective") ∨
      p = some ("adverb")
  · rw [if_pos h]; exact Or.inr rfl
  · rw [if_neg h]; exact Or.inl rfl

/-- Helper: how the recorded maximum weight grows by one row. -/
theorem wmax_append_single (pr : List (String × Option String))
    (r : String × Option String) (l : String) :
    wmax (pr ++ [r]) l =
      (if r.1 = l ∧ posWeight r.2 = 3 then 3 else wmax pr l) := by
  unfold wmax
  simp only [List.any_append, List.any_cons, List.any_nil, Bool.or_false]
  by_cases hr : r.1 = l ∧ posWeight r.2 = 3
  · rw [if_pos hr]
    rw [show (decide (r.1 = l) && decide (posWeight r.2 = 3)) = true by
      simp [hr.1, hr.2]]
    rw [Bool.or_true]
    rfl
  · rw [if_neg hr]
    rw [show (decide (r.1 = l) && decide (posWeight r.2 = 3)) = false by
      rcases Decidable.not_and_iff_or_not.mp hr with h | h <;> simp [h]]
    rw [Bool.or_false]

/-- Helper: a lemma with no row has maximum weight 1. -/
theorem wmax_eq_one_of_not_mem (pr : List (String × Option String))
    (l : String) (h : ∀ p, (l, p) ∉ pr) : wmax pr l = 1 := by
  unfold wmax
  rw [if_neg]
  intro hc
  rw [List.any_eq_true] at hc
  obtain ⟨q, hq, hql⟩ := hc
  simp only [Bool.and_eq_true, decide_eq_true_eq] at hql
  exact h q.2 (by rw [show (l, q.2) = q from Prod.ext hql.1.symm rfl]; exact hq)

/-- Helper: one `insertRow` step preserves the dictionary invariant —
entries carry their part of speech's weight, which is the maximum weight
seen so far for that lemma; keys are exactly the nonempty lemmas processed
so far, without duplicates. -/
theorem insertRow_inv (pr : List (String × Option String))
    (acc : List WeightedLemma) (r : String × Option String)
    (h1 : ∀ e ∈ acc, e.lemma_ ≠ "" ∧ e.weight = posWeight e.pos ∧
      e.weight = wmax pr e.lemma_)
    (h2 : ∀ l : String, (∃ e ∈ acc, e.lemma_ = l) ↔
      (l ≠ "" ∧ ∃ p, (l, p) ∈ pr))
    (h3 : (acc.map (fun e => e.lemma_)).Nodup) :
    (∀ e ∈ insertRow acc r, e.lemma_ ≠ "" ∧ e.weight = posWeight e.pos ∧
      e.weight = wmax (pr ++ [r]) e.lemma_) ∧
    (∀ l : String, (∃ e ∈ insertRow acc r, e.lemma_ = l) ↔
      (l ≠ "" ∧ ∃ p, (l, p) ∈ pr ++ [r])) ∧
    ((insertRow acc r).map (fun e => e.lemma_)).Nodup := by
  unfold insertRow
  by_cases hr : r.1 = ""
  · rw [if_pos hr]
    refine ⟨?_, ?_, h3⟩
    · intro e he
      obtain ⟨e1, e2, e3⟩ := h1 e he
      refine ⟨e1, e2, ?_⟩
      rw [wmax_append_single, if_neg (fun hc => e1 (hc.1.symm.trans hr))]
      · exact e3
    · intro l
      rw [h2 l]
      constructor
      · rintro ⟨hl, p, hp⟩
        exact ⟨hl, p, List.mem_append_left _ hp⟩
      · rintro ⟨hl, p, hp⟩
        rcases List.mem_append.mp hp with hp | hp
        · exact ⟨hl, p, hp⟩
        · rw [List.mem_singleton] at hp
          exact absurd ((congrArg Prod.fst hp).trans hr) hl
  · rw [if_neg hr]
    dsimp only
    by_cases hdup : acc.any (fun e => e.lemma_ = r.1)
    · rw [if_pos hdup]
      have keyeq : ∀ e : WeightedLemma,
          ((if e.lemma_ = r.1 ∧ posWeight r.2 > e.weight then
            (⟨r.1, r.2, posWeight r.2⟩ : WeightedLemma) else e)).lemma_ =
          e.lemma_ := by
        intro e
        by_cases hc : e.lemma_ = r.1 ∧ posWeight r.2 > e.weight
        · rw [if_pos hc]; exact hc.1.symm
        · rw [if_neg hc]
      have keysame : ((acc.map (fun e =>
          if e.lemma_ = r.1 ∧ posWeight r.2 > e.weight then
            (⟨r.1, r.2, posWeight r.2⟩ : WeightedLemma) else e)).map
          (fun e => e.lemma_)) = acc.map (fun e => e.lemma_) := by
        rw [List.map_map]
        exact List.map_congr_left (fun e _ => keyeq e)
      refine ⟨?_, ?_, by rw [keysame]; exact h3⟩
      · intro e' he'
        rw [List.mem_map] at he'
        obtain ⟨e, he, rfl⟩ := he'
        obtain ⟨e1, e2, e3⟩ := h1 e he
        by_cases hc : e.lemma_ = r.1 ∧ posWeight r.2 > e.weight
        · rw [if_pos hc]
          have hw3 : posWeight r.2 = 3 ∧ e.weight = 1 := by
            rcases posWeight_cases r.2 with hp | hp <;>
              rcases posWeight_cases e.pos with hq | hq <;>
                rw [hp] at hc ⊢ <;> rw [e2, hq] at hc ⊢ <;> omega
          refine ⟨hr, rfl, ?_⟩
          show posWeight r.2 = wmax (pr ++ [r]) r.1
          rw [wmax_append_single, if_pos ⟨rfl, hw3.1⟩, hw3.1]
        · rw [if_neg hc]
          refine ⟨e1, e2, ?_⟩
          rw [wmax_append_single]
          by_cases hc2 : r.1 = e.lemma_ ∧ posWeight r.2 = 3
          · rw [if_pos hc2]
            have : ¬ posWeight r.2 > e.weight := fun hgt =>
              hc ⟨hc2.1.symm, hgt⟩
            rcases posWeight_cases e.pos with hq | hq
            · rw [e2, hq] at this; rw [hc2.2] at this; omega
            · rw [e2, hq]
          · rw [if_neg hc2]
            exact e3
      · intro l
        constructor
        · rintro ⟨e', he', hl⟩
          rw [List.mem_map] at he'
          obtain ⟨e, he, rfl⟩ := he'
          rw [keyeq e] at hl
          obtain ⟨hne, p, hp⟩ := (h2 l).mp ⟨e, he, hl⟩
          exact ⟨hne, p, List.mem_append_left _ hp⟩
        · rintro ⟨hl, p, hp⟩
          rcases List.mem_append.mp hp with hp | hp
          · obtain ⟨e, he, hel⟩ := (h2 l).mpr ⟨hl, p, hp⟩
            refine ⟨_, List.mem_map_of_mem _ he, ?_⟩
            rw [keyeq e]
            exact hel
          · rw [List.mem_singleton] at hp
            have hlr : l = r.1 := congrArg Prod.fst hp
            rw [List.any_eq_true] at hdup
            obtain ⟨e, he, hel⟩ := hdup
            rw [decide_eq_true_eq] at hel
            refine ⟨_, List.mem_map_of_mem _ he, ?_⟩
            rw [keyeq e, hel, hlr]
    · rw [if_neg hdup]
      have hnokey : ∀ e ∈ acc, e.lemma_ ≠ r.1 := by
        intro e he hc
        exact hdup (List.any_eq_true.mpr ⟨e, he, by simp [hc]⟩)
      have hnot_pr : ∀ p, (r.1, p) ∉ pr := by
        intro p hp
        obtain ⟨e, he, hel⟩ := (h2 r.1).mpr ⟨hr, p, hp⟩
        exact hnokey e he hel
      refine ⟨?_, ?_, ?_⟩
      · intro e' he'
        rcases List.mem_append.mp he' with he | he
        · obtain ⟨e1, e2, e3⟩ := h1 e' he
          refine ⟨e1, e2, ?_⟩
          rw [wmax_append_single,
            if_neg (fun hc => hnokey e' he hc.1.symm)]
          exact e3
        · rw [List.mem_singleton] at he
          subst he
          refine ⟨hr, rfl, ?_⟩
          show posWeight r.2 = wmax (pr ++ [r]) r.1
          rw [wmax_append_single, wmax_eq_one_of_not_mem pr r.1 hnot_pr]
          rcases posWeight_cases r.2 with hp | hp
          · rw [if_neg (fun hc => by rw [hp] at hc; omega), hp]
          · rw [if_pos ⟨rfl, hp⟩, hp]
      · intro l
        constructor
        · rintro ⟨e, he, hl⟩
          rcases List.mem_append.mp he with he' | he'
          · obtain ⟨hne, p, hp⟩ := (h2 l).mp ⟨e, he', hl⟩
            exact ⟨hne, p, List.mem_append_left _ hp⟩
          · rw [List.mem_singleton] at he'
            subst he'
            exact ⟨hl ▸ hr, r.2, List.mem_append_right _
              (by rw [List.mem_singleton, ← hl])⟩
        · rintro ⟨hl, p, hp⟩
          rcases List.mem_append.mp hp with hp' | hp'
          · obtain ⟨e, he, hel⟩ := (h2 l).mpr ⟨hl, p, hp'⟩
            exact ⟨e, List.mem_append_left _ he, hel⟩
          · rw [List.mem_singleton] at hp'
            have hlr : l = r.1 := congrArg Prod.fst hp'
            subst hlr
            exact ⟨⟨r.1, r.2, posWeight r.2⟩,
              List.mem_append_right _ (List.mem_singleton_self _), rfl⟩
      · rw [List.map_append]
        refine List.Nodup.append h3 (by simp) ?_
        intro x hx hy
        simp only [List.map_cons, List.map_nil, List.mem_singleton] at hy
        rw [List.mem_map] at hx
        obtain ⟨e, he, rfl⟩ := hx
        exact hnokey e he hy

/-- Helper: the whole row loop preserves the dictionary invariant. -/
theorem foldl_insertRow_inv (rows : List (String × Option String)) :
    ∀ (pr : List (String × Option String)) (acc : List WeightedLemma),
      (∀ e ∈ acc, e.lemma_ ≠ "" ∧ e.weight = posWeight e.pos ∧
        e.weight = wmax pr e.lemma_) →
      (∀ l : String, (∃ e ∈ acc, e.lemma_ = l) ↔
        (l ≠ "" ∧ ∃ p, (l, p) ∈ pr)) →
      ((acc.map (fun e => e.lemma_)).Nodup) →
      (∀ e ∈ rows.foldl insertRow acc, e.lemma_ ≠ "" ∧
        e.weight = posWeight e.pos ∧
        e.weight = wmax (pr ++ rows) e.lemma_) ∧
      (∀ l : String, (∃ e ∈ rows.foldl insertRow acc, e.lemma_ = l) ↔
        (l ≠ "" ∧ ∃ p, (l, p) ∈ pr ++ rows)) ∧
      (((rows.foldl insertRow acc).map (fun e => e.lemma_)).Nodup) := by
  induction rows with
  | nil =>
    intro pr acc h1 h2 h3
    simp only [List.foldl_nil, List.append_nil]
    exact ⟨h1, h2, h3⟩
  | cons r rows ih =>
    intro pr acc h1 h2 h3
    rw [List.foldl_cons]
    obtain ⟨g1, g2, g3⟩ := insertRow_inv pr acc r h1 h2 h3
    have := ih (pr ++ [r]) (insertRow acc r) g1 g2 g3
    rw [List.append_assoc] at this
    simpa using this

/-- Helper: the dictionary built from the rows satisfies the invariant. -/
theorem lemma_dict_inv (rows : List (String × Option String)) :
    (∀ e ∈ rows.foldl insertRow [], e.lemma_ ≠ "" ∧
      e.weight = posWeight e.pos ∧ e.weight = wmax rows e.lemma_) ∧
    (∀ l : String, (∃ e ∈ rows.foldl insertRow [], e.lemma_ = l) ↔
      (l ≠ "" ∧ ∃ p, (l, p) ∈ rows)) ∧
    (((rows.foldl insertRow []).map (fun e => e.lemma_)).Nodup) := by
  have := foldl_insertRow_inv rows [] []
    (by intro e he; simp at he)
    (by intro l; simp)
    (by simp)
  simpa using this

/-- Helper: (lemma, weight) pairs of the dictionary are exactly the
nonempty lemmas of the rows with their maximum weight. -/
theorem lemma_dict_proj_mem (rows : List (String × Option String))
    (l : String) (w : Nat) :
    ((l, w) ∈ (rows.foldl insertRow []).map projWL ↔
      (l ≠ "" ∧ (∃ p, (l, p) ∈ rows) ∧ w = wmax rows l)) := by
  obtain ⟨h1, h2, _⟩ := lemma_dict_inv rows
  constructor
  · intro h
    rw [List.mem_map] at h
    obtain ⟨e, he, hpe⟩ := h
    obtain ⟨e1, _, e3⟩ := h1 e he
    have hl : e.lemma_ = l := congrArg Prod.fst hpe
    have hw : e.weight = w := congrArg Prod.snd hpe
    exact ⟨hl ▸ e1, (h2 l).mp ⟨e, he, hl⟩ |>.2, by rw [← hw, ← hl]; exact e3⟩
  · rintro ⟨hl, hex, hw⟩
    obtain ⟨e, he, hel⟩ := (h2 l).mpr ⟨hl, hex⟩
    obtain ⟨_, _, e3⟩ := h1 e he
    rw [List.mem_map]
    refine ⟨e, he, ?_⟩
    unfold projWL
    rw [hel, hw, ← hel, ← e3]

/-- Helper: the maximum weight of a lemma is invariant under reordering of
the rows. -/
theorem wmax_perm {rows rows' : List (String × Option String)}
    (h : rows.Perm rows') (l : String) : wmax rows l = wmax rows' l := by
  unfold wmax
  have heq : rows.any (fun r => r.1 = l && posWeight r.2 = 3) =
      rows'.any (fun r => r.1 = l && posWeight r.2 = 3) := by
    by_cases hx : rows.any (fun r => r.1 = l && posWeight r.2 = 3) = true
    · have hx' : rows'.any (fun r => r.1 = l && posWeight r.2 = 3) = true := by
        rw [List.any_eq_true] at hx ⊢
        obtain ⟨q, hq, hql⟩ := hx
        exact ⟨q, h.mem_iff.mp hq, hql⟩
      rw [hx, hx']
    · have hx' : rows'.any (fun r => r.1 = l && posWeight r.2 = 3) = false := by
        rw [Bool.eq_false_iff]
        intro hc
        apply hx
        rw [List.any_eq_true] at hc ⊢
        obtain ⟨q, hq, hql⟩ := hc
        exact ⟨q, h.mem_iff.mpr hq, hql⟩
      rw [Bool.not_eq_true] at hx
      rw [hx, hx']
  rw [heq]

/-- Helper: the (lemma, weight) projection of the dictionary has no
duplicates. -/
theorem lemma_dict_proj_nodup (rows : List (String × Option String)) :
    ((rows.foldl insertRow []).map projWL).Nodup := by
  obtain ⟨_, _, h3⟩ := lemma_dict_inv rows
  apply List.Nodup.of_map Prod.fst
  rw [List.map_map]
  exact h3

/-- Helper: the (lemma, weight) projection of `get_verse_words` is
invariant under any permutation of the input rows: both projections are
sorted by the antisymmetric order `projRel` and have the same members. -/
theorem get_verse_words_proj_perm
    {rows rows' : List (String × Option String)} (h : rows.Perm rows') :
    (get_verse_wordsRows rows).map projWL =
      (get_verse_wordsRows rows').map projWL := by
  have hmap : ∀ a b : WeightedLemma, wlRel a b → projRel (projWL a) (projWL b) :=
    fun a b hab => hab
  have hs1 : List.Pairwise projRel ((get_verse_wordsRows rows).map projWL) :=
    List.Pairwise.map projWL hmap (List.sorted_insertionSort wlRel _)
  have hs2 : List.Pairwise projRel ((get_verse_wordsRows rows').map projWL) :=
    List.Pairwise.map projWL hmap (List.sorted_insertionSort wlRel _)
  have hp1 : ((get_verse_wordsRows rows).map projWL).Perm
      ((rows.foldl insertRow []).map projWL) :=
    (List.perm_insertionSort wlRel _).map projWL
  have hp2 : ((get_verse_wordsRows rows').map projWL).Perm
      ((rows'.foldl insertRow []).map projWL) :=
    (List.perm_insertionSort wlRel _).map projWL
  have hmem : ∀ x : String × Nat,
      (x ∈ (rows.foldl insertRow []).map projWL ↔
       x ∈ (rows'.foldl insertRow []).map projWL) := by
    rintro ⟨l, w⟩
    rw [lemma_dict_proj_mem, lemma_dict_proj_mem]
    constructor
    · rintro ⟨hl, ⟨p, hp⟩, hw⟩
      exact ⟨hl, ⟨p, h.mem_iff.mp hp⟩, hw.trans (wmax_perm h l)⟩
    · rintro ⟨hl, ⟨p, hp⟩, hw⟩
      exact ⟨hl, ⟨p, h.mem_iff.mpr hp⟩, hw.trans (wmax_perm h l).symm⟩
  have hAA : ((rows.foldl insertRow []).map projWL).Perm
      ((rows'.foldl insertRow []).map projWL) :=
    (List.perm_ext_iff_of_nodup (lemma_dict_proj_nodup rows)
      (lemma_dict_proj_nodup rows')).mpr hmem
  exact List.eq_of_perm_of_sorted (hp1.trans (hAA.trans hp2.symm)) hs1 hs2

/-- C7 (amended): `get_verse_words` assigns weight 3 exactly to the
content-bearing parts of speech (verb, noun, adjective, adverb) and 1 to
every other (or missing) part of speech; a lemma occurring with several
parts of speech keeps the higher weight (3 as soon as one content-bearing
occurrence exists); the output is sorted by weight descending then lemma
ascending; and the (lemma, weight) content of the output is invariant under
any reordering of the input rows.  (The `pos` recorded for an equal-weight
tie depends on row order — see the counterexample — so invariance of the
full records fails.) -/
theorem get_verse_words_weights_sorted_invariant :
    (∀ (rows : List (String × Option String)) (e : WeightedLemma),
       e ∈ get_verse_wordsRows rows →
       e.weight = posWeight e.pos ∧ e.weight = wmax rows e.lemma_) ∧
    (∀ p : Option String, posWeight p =
       (if p = some ("verb") ∨ p = some ("noun") ∨ p = some ("adjective") ∨
           p = some ("adverb") then 3 else 1)) ∧
    (∀ rows : List (String × Option String),
       List.Pairwise wlRel (get_verse_wordsRows rows)) ∧
    (∀ rows rows' : List (String × Option String), rows.Perm rows' →
       (get_verse_wordsRows rows).map projWL =
         (get_verse_wordsRows rows').map projWL) := by
  refine ⟨?_, posWeight_table, ?_, fun _ _ h => get_verse_words_proj_perm h⟩
  · intro rows e he
    unfold get_verse_wordsRows at he
    rw [List.mem_insertionSort] at he
    obtain ⟨_, e2, e3⟩ := (lemma_dict_inv rows).1 e he
    exact ⟨e2, e3⟩
  · intro rows
    exact List.sorted_insertionSort wlRel _

/-- Witness for the amended C7 at concrete rows. -/
theorem get_verse_words_weights_sorted_invariant_witness :
    ((⟨("a"), some ("noun"), 3⟩ : WeightedLemma).weight =
       posWeight (⟨("a"), some ("noun"), 3⟩ : WeightedLemma).pos ∧
     (⟨("a"), some ("noun"), 3⟩ : WeightedLemma).weight =
       wmax [(("a"), some ("noun")), (("b"), none)]
         (⟨("a"), some ("noun"), 3⟩ : WeightedLemma).lemma_) ∧
    (get_verse_wordsRows [(("a"), some ("noun")), (("b"), none)]).map projWL =
      (get_verse_wordsRows [(("b"), none), (("a"), some ("noun"))]).map projWL :=
  ⟨get_verse_words_weights_sorted_invariant.1
      [(("a"), some ("noun")), (("b"), none)] _ (by decide),
   get_verse_words_weights_sorted_invariant.2.2.2
      [(("a"), some ("noun")), (("b"), none)]
      [(("b"), none), (("a"), some ("noun"))] (by decide)⟩

/-- Counterexample to C7 as stated: the two orderings of the same rows give
different outputs — the lemma `a` occurs as noun and as verb (both weight
3), and the dict keeps the first-seen part of speech, so the `pos` field of
the result depends on the input row order. -/
theorem get_verse_words_not_order_invariant :
    ([(("a"), (some ("noun") : Option String)), (("a"), some ("verb"))].Perm
       [(("a"), some ("verb")), (("a"), some ("noun"))]) ∧
    get_verse_wordsRows [(("a"), some ("noun")), (("a"), some ("verb"))] ≠
      get_verse_wordsRows [(("a"), some ("verb")), (("a"), some ("noun"))] := by
  decide
